import Mathlib

/-!
RME HDSPe driver, pcm part (`hdspe-pcm.c`).

A shallow embedding of the sample-routing core of the driver: the port
layout functions, the rate and latency resolvers, the ring-buffer codec and
the channel run tracking, followed by theorems about them.

Conventions of the embedding.

* C unsigned integers are natural numbers; where 32-bit wrap-around can
  change a result the reduction modulo `2 ^ 32` is written out.
* The constants and macros of `hdspe.h` and of the sound framework are not
  defined in `hdspe-pcm.c`; they are the fields of `hdspe_h`, a parameter of
  every function that uses one.
* Sample buffers (`uint32_t *`) are total maps from an index to a sample.
  Index arithmetic is exact: a C array access is only defined inside the
  allocated object, which is far smaller than `2 ^ 32` samples.
* The device (`struct sc_info`) owns its child pcm devices and their
  channels; a channel handle is the pair of indices `(i, j)` of the child
  and of the channel in that child.
-/

namespace Hdspe

/-! ## Constants of `hdspe.h` and of the sound framework -/

/-- The framework buffer of a channel, as far as the driver observes it:
its block geometry and its ready / free pointers (in bytes). -/
structure snd_dbuf where
  blkcnt : Nat
  blksz : Nat
  readyptr : Nat
  freeptr : Nat
  deriving DecidableEq, Repr

/-- Values of the constants and macros that `hdspe-pcm.c` takes from
`hdspe.h` and from `sound.h`, and the framework call `sndbuf_resize`. -/
structure hdspe_h where
  HDSPE_CHAN_AIO_LINE : Nat
  HDSPE_CHAN_AIO_PHONE : Nat
  HDSPE_CHAN_AIO_AES : Nat
  HDSPE_CHAN_AIO_SPDIF : Nat
  HDSPE_CHAN_AIO_ADAT : Nat
  HDSPE_CHAN_RAY_AES : Nat
  HDSPE_CHAN_RAY_SPDIF : Nat
  HDSPE_CHAN_RAY_ADAT1 : Nat
  HDSPE_CHAN_RAY_ADAT2 : Nat
  HDSPE_CHAN_RAY_ADAT3 : Nat
  HDSPE_CHAN_RAY_ADAT4 : Nat
  HDSPE_CHANBUF_SAMPLES : Nat
  HDSPE_CHANBUF_SIZE : Nat
  HDSPE_FREQ_32000 : Nat
  HDSPE_FREQ_44100 : Nat
  HDSPE_FREQ_48000 : Nat
  HDSPE_FREQ_DOUBLE : Nat
  HDSPE_FREQ_QUAD : Nat
  HDSPE_FREQ_MASK : Nat
  HDSPE_FREQ_AIO : Nat
  HDSPE_FREQ_REG : Nat
  HDSPE_CONTROL_REG : Nat
  HDSPE_RAYDAT : Nat
  HDSPE_AIO : Nat
  HDSPE_LAT_MASK : Nat
  HDSPE_LAT_BYTES_MAX : Nat
  HDSPE_LAT_BYTES_MIN : Nat
  hdspe_encode_latency : Nat → Nat
  HDSPE_AUDIO_INT_ENABLE : Nat
  HDSPE_ENABLE : Nat
  HDSPE_MAX_GAIN : Nat
  HDSPE_MIXER_BASE : Nat
  HDSPE_OUT_ENABLE_BASE : Nat
  HDSPE_IN_ENABLE_BASE : Nat
  AFMT_CHANNEL : Nat → Nat
  sndbuf_resize : snd_dbuf → Nat → Nat → snd_dbuf

/-- One set of header values, used to evaluate the code on concrete inputs:
one bit per port, a ring of `16 * 1024` samples per slot, the frequency bits
at positions 6, 7, 8 and 31 of the control word, and a `sndbuf_resize` that
stores the requested geometry. -/
def hdr0 : hdspe_h where
  HDSPE_CHAN_AIO_LINE := 1
  HDSPE_CHAN_AIO_PHONE := 2
  HDSPE_CHAN_AIO_AES := 4
  HDSPE_CHAN_AIO_SPDIF := 8
  HDSPE_CHAN_AIO_ADAT := 16
  HDSPE_CHAN_RAY_AES := 32
  HDSPE_CHAN_RAY_SPDIF := 64
  HDSPE_CHAN_RAY_ADAT1 := 128
  HDSPE_CHAN_RAY_ADAT2 := 256
  HDSPE_CHAN_RAY_ADAT3 := 512
  HDSPE_CHAN_RAY_ADAT4 := 1024
  HDSPE_CHANBUF_SAMPLES := 16384
  HDSPE_CHANBUF_SIZE := 65536
  HDSPE_FREQ_32000 := 64
  HDSPE_FREQ_44100 := 128
  HDSPE_FREQ_48000 := 192
  HDSPE_FREQ_DOUBLE := 256
  HDSPE_FREQ_QUAD := 2147483648
  HDSPE_FREQ_MASK := 2147484096
  HDSPE_FREQ_AIO := 104857600000000
  HDSPE_FREQ_REG := 256
  HDSPE_CONTROL_REG := 64
  HDSPE_RAYDAT := 1
  HDSPE_AIO := 0
  HDSPE_LAT_MASK := 14
  HDSPE_LAT_BYTES_MAX := 16384
  HDSPE_LAT_BYTES_MIN := 128
  hdspe_encode_latency := fun x => (x <<< 1) &&& 14
  HDSPE_AUDIO_INT_ENABLE := 32
  HDSPE_ENABLE := 1
  HDSPE_MAX_GAIN := 32768
  HDSPE_MIXER_BASE := 32768
  HDSPE_OUT_ENABLE_BASE := 512
  HDSPE_IN_ENABLE_BASE := 0
  AFMT_CHANNEL := fun v => (v &&& 133169152) >>> 20
  sndbuf_resize := fun b blkcnt blksz => { b with blkcnt := blkcnt, blksz := blksz }

/-! ## Device state -/

/-- Direction of a channel (`PCMDIR_PLAY` / `PCMDIR_REC`). -/
inductive PCMDIR where
  | PCMDIR_PLAY
  | PCMDIR_REC
  deriving DecidableEq, Repr

/-- One register write `hdspe_write_<size>(sc, offset, value)`. -/
structure reg_write where
  size : Nat
  offset : Nat
  value : Nat
  deriving DecidableEq, Repr

/-- Per-channel state (`struct sc_chinfo`). -/
structure sc_chinfo where
  ports : Nat
  run : Nat
  lvol : Nat
  rvol : Nat
  format : Nat
  dir : PCMDIR
  data : Nat → Nat
  buffer : snd_dbuf

/-- Per-pcm-device state (`struct sc_pcminfo`); `chnum` is the length of
`chan`. -/
structure sc_pcminfo where
  chan : List sc_chinfo

/-- Device state (`struct sc_info`) together with what the driver reaches
from it: the child pcm devices, the result of `device_get_children`, the two
shared ring buffers and the log of register writes. -/
structure sc_info where
  type : Nat
  speed : Nat
  period : Nat
  ctrl_register : Nat
  pbuf : Nat → Nat
  rbuf : Nat → Nat
  children_err : Nat
  children : List sc_pcminfo
  regs : List reg_write

/-- The write `hdspe_write_4(sc, offset, value)`, appended to the log. -/
def hdspe_write_4 (sc : sc_info) (offset value : Nat) : sc_info :=
  { sc with regs := sc.regs ++ [⟨4, offset, value % 2 ^ 32⟩] }

/-- The write `hdspe_write_1(sc, offset, value)`, appended to the log. -/
def hdspe_write_1 (sc : sc_info) (offset value : Nat) : sc_info :=
  { sc with regs := sc.regs ++ [⟨1, offset, value % 2 ^ 8⟩] }

/-- Bitwise complement of a 32-bit word. -/
def not32 (x : Nat) : Nat := (2 ^ 32 - 1) ^^^ (x % 2 ^ 32)

/-! ## Rate and latency tables -/

/-- Entry of the rate table (`struct hdspe_rate`). -/
structure hdspe_rate where
  speed : Nat
  reg : Nat
  deriving DecidableEq, Repr

/-- The rate table, with its terminating zero entry. -/
def rate_map (h : hdspe_h) : List hdspe_rate :=
  [ ⟨32000, h.HDSPE_FREQ_32000⟩,
    ⟨44100, h.HDSPE_FREQ_44100⟩,
    ⟨48000, h.HDSPE_FREQ_48000⟩,
    ⟨64000, h.HDSPE_FREQ_32000 ||| h.HDSPE_FREQ_DOUBLE⟩,
    ⟨88200, h.HDSPE_FREQ_44100 ||| h.HDSPE_FREQ_DOUBLE⟩,
    ⟨96000, h.HDSPE_FREQ_48000 ||| h.HDSPE_FREQ_DOUBLE⟩,
    ⟨128000, h.HDSPE_FREQ_32000 ||| h.HDSPE_FREQ_QUAD⟩,
    ⟨176400, h.HDSPE_FREQ_44100 ||| h.HDSPE_FREQ_QUAD⟩,
    ⟨192000, h.HDSPE_FREQ_48000 ||| h.HDSPE_FREQ_QUAD⟩,
    ⟨0, 0⟩ ]

/-- Entry of the latency table (`struct hdspe_latency`, without the
informational `ms` field). -/
structure hdspe_latency where
  n : Nat
  period : Nat
  deriving DecidableEq, Repr

/-- The latency table, with its terminating zero entry. -/
def latency_map : List hdspe_latency :=
  [ ⟨7, 32⟩, ⟨0, 64⟩, ⟨1, 128⟩, ⟨2, 256⟩, ⟨3, 512⟩, ⟨4, 1024⟩, ⟨5, 2048⟩,
    ⟨6, 4096⟩, ⟨0, 0⟩ ]

/-- Stream width of an ADAT port at a sample rate. -/
def hdspe_adat_width (speed : Nat) : Nat :=
  if speed > 96000 then 2
  else if speed > 48000 then 4
  else 8

/-! ## Run tracking -/

/-- The scan of `hdspe_running`: 1 when `device_get_children` fails or some
channel of some child has its run flag set, 0 otherwise. -/
def hdspe_running (sc : sc_info) : Nat :=
  if sc.children_err ≠ 0 then 1
  else if sc.children.any (fun scp => scp.chan.any (fun ch => ch.run ≠ 0)) then 1
  else 0

/-! ## Rate resolver -/

/-- First loop of `hdspechan_setspeed`: look for an equal frequency, over the
part of the table from the current index on; `hr` is the match so far. -/
def hdspechan_setspeed_equal (speed : Nat) :
    List hdspe_rate → Option hdspe_rate → Option hdspe_rate
  | [], hr => hr
  | e :: rest, hr =>
    if e.speed = 0 then hr
    else hdspechan_setspeed_equal speed rest (if e.speed = speed then some e else hr)

/-- Second loop of `hdspechan_setspeed`: find the nearest entry. Every
iteration stores the current entry in `hr` and stops when the requested speed
is below the threshold of that entry. -/
def hdspechan_setspeed_nearest (speed : Nat) :
    List hdspe_rate → Option hdspe_rate → Option hdspe_rate
  | [], hr => hr
  | e :: rest, hr =>
    if e.speed = 0 then hr
    else
      let next := rest.headD ⟨0, 0⟩
      let threshold := (e.speed +
        (if next.speed ≠ 0 then ((next.speed + 2 ^ 32 - e.speed) % 2 ^ 32) >>> 1 else 0))
          % 2 ^ 32
      if speed < threshold then some e
      else hdspechan_setspeed_nearest speed rest (some e)

/-- The table entry selected by the two loops of `hdspechan_setspeed`. -/
def hdspechan_setspeed_hr (h : hdspe_h) (speed : Nat) : Option hdspe_rate :=
  match hdspechan_setspeed_equal speed (rate_map h) none with
  | some e => some e
  | none => hdspechan_setspeed_nearest speed (rate_map h) none

/-- The channel method `hdspechan_setspeed`: new device state and returned
rate. -/
def hdspechan_setspeed (h : hdspe_h) (sc : sc_info) (speed : Nat) : sc_info × Nat :=
  if hdspe_running sc = 1 then (sc, sc.speed)
  else
    let hr := hdspechan_setspeed_hr h speed
    if sc.type = h.HDSPE_RAYDAT ∨ sc.type = hdspe_h.HDSPE_AIO h then
      match hr with
      | none => (sc, sc.speed)
      | some r =>
        let period := hdspe_h.HDSPE_FREQ_AIO h
        let ctrl := (sc.ctrl_register &&& not32 h.HDSPE_FREQ_MASK) ||| r.reg
        let sc1 := hdspe_write_4 { sc with ctrl_register := ctrl } h.HDSPE_CONTROL_REG ctrl
        let speed1 := r.speed
        let speed2 := if speed1 > 96000 then speed1 / 4
          else if speed1 > 48000 then speed1 / 2 else speed1
        let period1 := period / speed2
        let sc2 := hdspe_write_4 sc1 h.HDSPE_FREQ_REG period1
        let sc3 := { sc2 with speed := r.speed }
        (sc3, sc3.speed)
    else (sc, sc.speed)

/-! ## Port layout -/

/-- First slot of a port mask at a stream width. -/
def hdspe_channel_slot_base (h : hdspe_h) (adat_width port : Nat) : Nat :=
  if port &&& h.HDSPE_CHAN_AIO_LINE ≠ 0 then 0
  else if port &&& h.HDSPE_CHAN_AIO_PHONE ≠ 0 then 6
  else if port &&& h.HDSPE_CHAN_AIO_AES ≠ 0 then 8
  else if port &&& h.HDSPE_CHAN_AIO_SPDIF ≠ 0 then 10
  else if port &&& h.HDSPE_CHAN_AIO_ADAT ≠ 0 then 12
  else if port &&& h.HDSPE_CHAN_RAY_AES ≠ 0 then 0
  else if port &&& h.HDSPE_CHAN_RAY_SPDIF ≠ 0 then 2
  else if port &&& h.HDSPE_CHAN_RAY_ADAT1 ≠ 0 then 4
  else if port &&& h.HDSPE_CHAN_RAY_ADAT2 ≠ 0 then 4 + adat_width
  else if port &&& h.HDSPE_CHAN_RAY_ADAT3 ≠ 0 then 4 + 2 * adat_width
  else if port &&& h.HDSPE_CHAN_RAY_ADAT4 ≠ 0 then 4 + 3 * adat_width
  else 0

/-- Number of slots of a port mask at a stream width. -/
def hdspe_channel_slot_width (h : hdspe_h) (adat_width port : Nat) : Nat :=
  if port &&& h.HDSPE_CHAN_AIO_LINE ≠ 0 then 2
  else
    let s1 := if port &&& h.HDSPE_CHAN_AIO_PHONE ≠ 0 then 2 else 0
    let s2 := if port &&& h.HDSPE_CHAN_AIO_AES ≠ 0 then s1 + 2 else s1
    let s3 := if port &&& h.HDSPE_CHAN_AIO_SPDIF ≠ 0 then s2 + 2 else s2
    let s4 := if port &&& h.HDSPE_CHAN_AIO_ADAT ≠ 0 then s3 + adat_width else s3
    if s4 > 0 then s4
    else
      let r1 := if port &&& h.HDSPE_CHAN_RAY_AES ≠ 0 then s4 + 2 else s4
      let r2 := if port &&& h.HDSPE_CHAN_RAY_SPDIF ≠ 0 then r1 + 2 else r1
      let r3 := if port &&& h.HDSPE_CHAN_RAY_ADAT1 ≠ 0 then r2 + adat_width else r2
      let r4 := if port &&& h.HDSPE_CHAN_RAY_ADAT2 ≠ 0 then r3 + adat_width else r3
      let r5 := if port &&& h.HDSPE_CHAN_RAY_ADAT3 ≠ 0 then r4 + adat_width else r4
      let r6 := if port &&& h.HDSPE_CHAN_RAY_ADAT4 ≠ 0 then r5 + adat_width else r5
      r6

/-- Number of interleaved channels of a port mask at a stream width. -/
def hdspe_channel_count (h : hdspe_h) (adat_width port : Nat) : Nat :=
  let c1 := if port &&& h.HDSPE_CHAN_AIO_LINE ≠ 0 then 2 else 0
  let c2 := if port &&& h.HDSPE_CHAN_AIO_PHONE ≠ 0 then c1 + 2 else c1
  let c3 := if port &&& h.HDSPE_CHAN_AIO_AES ≠ 0 then c2 + 2 else c2
  let c4 := if port &&& h.HDSPE_CHAN_AIO_SPDIF ≠ 0 then c3 + 2 else c3
  let c5 := if port &&& h.HDSPE_CHAN_AIO_ADAT ≠ 0 then c4 + adat_width else c4
  if c5 > 0 then c5
  else
    let r1 := if port &&& h.HDSPE_CHAN_RAY_AES ≠ 0 then c5 + 2 else c5
    let r2 := if port &&& h.HDSPE_CHAN_RAY_SPDIF ≠ 0 then r1 + 2 else r1
    let r3 := if port &&& h.HDSPE_CHAN_RAY_ADAT1 ≠ 0 then r2 + adat_width else r2
    let r4 := if port &&& h.HDSPE_CHAN_RAY_ADAT2 ≠ 0 then r3 + adat_width else r3
    let r5 := if port &&& h.HDSPE_CHAN_RAY_ADAT3 ≠ 0 then r4 + adat_width else r4
    let r6 := if port &&& h.HDSPE_CHAN_RAY_ADAT4 ≠ 0 then r5 + adat_width else r5
    r6

/-! ## Channel handles -/

/-- The channel `&scp->chan[j]` of the child `i`, when the handle is valid. -/
def sc_info.getch (sc : sc_info) (i j : Nat) : Option sc_chinfo :=
  match sc.children.get? i with
  | none => none
  | some scp => scp.chan.get? j

/-- Store a channel back at its handle. -/
def sc_info.setch (sc : sc_info) (i j : Nat) (ch : sc_chinfo) : sc_info :=
  match sc.children.get? i with
  | none => sc
  | some scp =>
    { sc with children := sc.children.set i { scp with chan := scp.chan.set j ch } }

/-! ## Latency resolver -/

/-- First loop of `hdspechan_setblocksize`: look for an equal latency. -/
def hdspechan_setblocksize_equal (blocksize : Nat) :
    List hdspe_latency → Option hdspe_latency → Option hdspe_latency
  | [], hl => hl
  | e :: rest, hl =>
    if e.period = 0 then hl
    else hdspechan_setblocksize_equal blocksize rest
      (if e.period = blocksize then some e else hl)

/-- Second loop of `hdspechan_setblocksize`: find the nearest entry. -/
def hdspechan_setblocksize_nearest (blocksize : Nat) :
    List hdspe_latency → Option hdspe_latency → Option hdspe_latency
  | [], hl => hl
  | e :: rest, hl =>
    if e.period = 0 then hl
    else
      let next := rest.headD ⟨0, 0⟩
      let threshold := (e.period +
        (if next.period ≠ 0 then ((next.period + 2 ^ 32 - e.period) % 2 ^ 32) >>> 1 else 0))
          % 2 ^ 32
      if blocksize < threshold then some e
      else hdspechan_setblocksize_nearest blocksize rest (some e)

/-- The channel method `hdspechan_setblocksize` on the channel `(i, j)`: new
device state and returned block size. -/
def hdspechan_setblocksize (h : hdspe_h) (sc : sc_info) (i j : Nat) (blocksize : Nat) :
    sc_info × Nat :=
  match sc.getch i j with
  | none => (sc, 0)
  | some ch =>
    if hdspe_running sc = 1 then (sc, ch.buffer.blksz)
    else
      let b1 := if blocksize > h.HDSPE_LAT_BYTES_MAX then h.HDSPE_LAT_BYTES_MAX
        else if blocksize < h.HDSPE_LAT_BYTES_MIN then h.HDSPE_LAT_BYTES_MIN
        else blocksize
      let b2 := b1 / 4
      let hl := match hdspechan_setblocksize_equal b2 latency_map none with
        | some e => some e
        | none => hdspechan_setblocksize_nearest b2 latency_map none
      match hl with
      | none => (sc, ch.buffer.blksz)
      | some l =>
        let ctrl := (sc.ctrl_register &&& not32 h.HDSPE_LAT_MASK) |||
          h.hdspe_encode_latency l.n
        let sc1 := hdspe_write_4 { sc with ctrl_register := ctrl } h.HDSPE_CONTROL_REG ctrl
        let sc2 := { sc1 with period := l.period }
        let b := h.sndbuf_resize ch.buffer
          ((h.HDSPE_CHANBUF_SIZE * h.AFMT_CHANNEL ch.format) / (sc2.period * 4))
          (sc2.period * 4)
        let sc3 := sc2.setch i j { ch with buffer := b }
        (sc3, b.blksz)

/-! ## Ring-buffer codec -/

/-- The array seen through the pointer `buf + off`. -/
def ptr_add (buf : Nat → Nat) (off : Nat) : Nat → Nat :=
  fun k => buf (off + k)

/-- The array `buf` after the part seen through `buf + off` became `view`. -/
def ptr_store (buf : Nat → Nat) (off : Nat) (view : Nat → Nat) : Nat → Nat :=
  fun k => if k < off then buf k else view (k - off)

/-- Multiplex `samples` frames of the interleaved buffer `pcm` into the slot
stripes of `dma`, starting at ring position `pos`; the result is `dma`. -/
def buffer_mux_write (h : hdspe_h) (dma pcm : Nat → Nat)
    (pos samples slots channels : Nat) : Nat → Nat :=
  match samples with
  | 0 => dma
  | n + 1 =>
    let dma1 := (List.range slots).foldl
      (fun d slot => Function.update d (slot * h.HDSPE_CHANBUF_SAMPLES + pos)
        (pcm (pos * channels + slot))) dma
    buffer_mux_write h dma1 pcm ((pos + 1) % h.HDSPE_CHANBUF_SAMPLES) n slots channels

/-- Multiplex the slots of `port` for a channel with the mask `ports`; the
result is the ring buffer. -/
def buffer_mux_port (h : hdspe_h) (dma pcm : Nat → Nat) (port ports : Nat)
    (pos samples adat_width : Nat) : Nat → Nat :=
  let chan_pos := 0
  let slot := hdspe_channel_slot_base h adat_width port
  let slot_width := hdspe_channel_slot_width h adat_width port
  let channels := hdspe_channel_count h adat_width ports
  let off := slot * h.HDSPE_CHANBUF_SAMPLES
  ptr_store dma off
    (buffer_mux_write h (ptr_add dma off) (ptr_add pcm chan_pos) pos samples slot_width
      channels)

/-- Demultiplex `samples` frames from the slot stripes of `dma` into the
interleaved buffer `pcm`, starting at ring position `pos`; the result is
`pcm`. -/
def buffer_demux_read (h : hdspe_h) (dma pcm : Nat → Nat)
    (pos samples slots channels : Nat) : Nat → Nat :=
  match samples with
  | 0 => pcm
  | n + 1 =>
    let pcm1 := (List.range slots).foldl
      (fun p slot => Function.update p (pos * channels + slot)
        (dma (slot * h.HDSPE_CHANBUF_SAMPLES + pos))) pcm
    buffer_demux_read h dma pcm1 ((pos + 1) % h.HDSPE_CHANBUF_SAMPLES) n slots channels

/-- Demultiplex the slots of `port` for a channel with the mask `ports`; the
result is the interleaved buffer. -/
def buffer_demux_port (h : hdspe_h) (dma pcm : Nat → Nat) (port ports : Nat)
    (pos samples adat_width : Nat) : Nat → Nat :=
  let chan_pos := 0
  let slot := hdspe_channel_slot_base h adat_width port
  let slot_width := hdspe_channel_slot_width h adat_width port
  let channels := hdspe_channel_count h adat_width ports
  let off := slot * h.HDSPE_CHANBUF_SAMPLES
  ptr_store pcm chan_pos
    (buffer_demux_read h (ptr_add dma off) (ptr_add pcm chan_pos) pos samples slot_width
      channels)

/-- The stream width `buffer_copy` copies with: the width of the device rate,
reduced to 2 or 4 when the negotiated channel count `n` is the count of the
mask at that width. -/
def buffer_copy_adat_width (h : hdspe_h) (speed n ports : Nat) : Nat :=
  let adat_width := hdspe_adat_width speed
  if adat_width > 2 ∧ n = hdspe_channel_count h 2 ports then 2
  else if adat_width > 4 ∧ n = hdspe_channel_count h 4 ports then 4
  else adat_width

/-- One period of `buffer_copy` on the channel `(i, j)`: playback multiplexes
the private buffer into the play ring, capture demultiplexes the record ring
into the private buffer. -/
def buffer_copy (h : hdspe_h) (sc : sc_info) (i j : Nat) : sc_info :=
  match sc.getch i j with
  | none => sc
  | some ch =>
    let n := h.AFMT_CHANNEL ch.format
    let adat_width := buffer_copy_adat_width h sc.speed n ch.ports
    let src := if ch.dir = PCMDIR.PCMDIR_PLAY then ch.buffer.readyptr else ch.buffer.freeptr
    let src1 := src / 4
    let dst := src1 / n
    if ch.dir = PCMDIR.PCMDIR_PLAY then
      let pbuf1 := buffer_mux_port h sc.pbuf ch.data ch.ports ch.ports dst
        (sc.period * 2) adat_width
      { sc with pbuf := pbuf1 }
    else
      let data1 := buffer_demux_port h sc.rbuf ch.data ch.ports ch.ports dst
        (sc.period * 2) adat_width
      sc.setch i j { ch with data := data1 }

/-! ## Gain, slot enable and zero-fill -/

/-- One gain-matrix write `hdspe_hw_mixer(ch, dst, src, data)`; `data` is an
`unsigned short`. -/
def hdspe_hw_mixer (h : hdspe_h) (sc : sc_info) (ch : sc_chinfo) (dst src data : Nat) :
    sc_info :=
  let offs := if ch.dir = PCMDIR.PCMDIR_PLAY then 64 else 0
  hdspe_write_4 sc (h.HDSPE_MIXER_BASE + (offs + src + 128 * dst) * 4)
    ((data % 2 ^ 16) &&& 65535)

/-- Apply the volume of the channel `(i, j)` to its slots: the first slot
gets the left volume, the following slots the right volume. -/
def hdspechan_setgain (h : hdspe_h) (sc : sc_info) (i j : Nat) : sc_info :=
  match sc.getch i j with
  | none => sc
  | some ch =>
    let slot := hdspe_channel_slot_base h (hdspe_adat_width sc.speed) ch.ports
    let end_slot := slot + hdspe_channel_slot_width h (hdspe_adat_width sc.speed) ch.ports
    let sc1 := if slot < end_slot then
        hdspe_hw_mixer h sc ch slot slot ((ch.lvol * h.HDSPE_MAX_GAIN) % 2 ^ 32 / 100)
      else sc
    let slot1 := if slot < end_slot then slot + 1 else slot
    (List.range' slot1 (end_slot - slot1)).foldl
      (fun s t => hdspe_hw_mixer h s ch t t ((ch.rvol * h.HDSPE_MAX_GAIN) % 2 ^ 32 / 100)) sc1

/-- Set the run flag of the channel `(i, j)` to `value` and write `value` to
the enable byte of each of its slots. -/
def hdspechan_enable (h : hdspe_h) (sc : sc_info) (i j : Nat) (value : Nat) : sc_info :=
  match sc.getch i j with
  | none => sc
  | some ch =>
    let reg := if ch.dir = PCMDIR.PCMDIR_PLAY then h.HDSPE_OUT_ENABLE_BASE
      else h.HDSPE_IN_ENABLE_BASE
    let sc1 := sc.setch i j { ch with run := value }
    let slot := hdspe_channel_slot_base h (hdspe_adat_width sc1.speed) ch.ports
    let end_slot := slot + hdspe_channel_slot_width h (hdspe_adat_width sc1.speed) ch.ports
    (List.range' slot (end_slot - slot)).foldl
      (fun s t => hdspe_write_1 s (reg + 4 * t) value) sc1

/-- Set the audio enable bits of the control word and write it. -/
def hdspe_start_audio (h : hdspe_h) (sc : sc_info) : sc_info :=
  let ctrl := sc.ctrl_register ||| (h.HDSPE_AUDIO_INT_ENABLE ||| h.HDSPE_ENABLE)
  hdspe_write_4 { sc with ctrl_register := ctrl } h.HDSPE_CONTROL_REG ctrl

/-- Clear the audio enable bits of the control word and write it, unless the
device is still running. -/
def hdspe_stop_audio (h : hdspe_h) (sc : sc_info) : sc_info :=
  if hdspe_running sc = 1 then sc
  else
    let ctrl := sc.ctrl_register &&& not32 (h.HDSPE_AUDIO_INT_ENABLE ||| h.HDSPE_ENABLE)
    hdspe_write_4 { sc with ctrl_register := ctrl } h.HDSPE_CONTROL_REG ctrl

/-- The call `bzero(buf + off, len)` on an array of 32-bit samples, for a
byte length `len` that is a multiple of 4. -/
def bzero (buf : Nat → Nat) (off len : Nat) : Nat → Nat :=
  fun k => if off ≤ k ∧ k < off + len / 4 then 0 else buf k

/-- Zero-fill the slots of the channel `(i, j)` in the ring of its
direction. -/
def clean (h : hdspe_h) (sc : sc_info) (i j : Nat) : sc_info :=
  match sc.getch i j with
  | none => sc
  | some ch =>
    let slot := hdspe_channel_slot_base h (hdspe_adat_width sc.speed) ch.ports
    let end_slot := slot + hdspe_channel_slot_width h (hdspe_adat_width sc.speed) ch.ports
    if ch.dir = PCMDIR.PCMDIR_PLAY then
      let buf := (List.range' slot (end_slot - slot)).foldl
        (fun b t => bzero b (h.HDSPE_CHANBUF_SAMPLES * t) h.HDSPE_CHANBUF_SIZE) sc.pbuf
      { sc with pbuf := buf }
    else
      let buf := (List.range' slot (end_slot - slot)).foldl
        (fun b t => bzero b (h.HDSPE_CHANBUF_SAMPLES * t) h.HDSPE_CHANBUF_SIZE) sc.rbuf
      { sc with rbuf := buf }

/-! ## Trigger -/

/-- The trigger commands handled by `hdspechan_trigger`. -/
inductive PCMTRIG where
  | PCMTRIG_START
  | PCMTRIG_STOP
  | PCMTRIG_ABORT
  | PCMTRIG_EMLDMAWR
  | PCMTRIG_EMLDMARD
  deriving DecidableEq, Repr

/-- The channel method `hdspechan_trigger` on the channel `(i, j)`. -/
def hdspechan_trigger (h : hdspe_h) (sc : sc_info) (i j : Nat) (go : PCMTRIG) : sc_info :=
  match sc.getch i j with
  | none => sc
  | some ch =>
    match go with
    | PCMTRIG.PCMTRIG_START =>
      hdspe_start_audio h (hdspechan_setgain h (hdspechan_enable h sc i j 1) i j)
    | PCMTRIG.PCMTRIG_STOP =>
      hdspe_stop_audio h (hdspechan_enable h (clean h sc i j) i j 0)
    | PCMTRIG.PCMTRIG_ABORT =>
      hdspe_stop_audio h (hdspechan_enable h (clean h sc i j) i j 0)
    | PCMTRIG.PCMTRIG_EMLDMAWR =>
      if ch.run ≠ 0 then buffer_copy h sc i j else sc
    | PCMTRIG.PCMTRIG_EMLDMARD =>
      if ch.run ≠ 0 then buffer_copy h sc i j else sc

/-! ## Concrete inputs -/

/-- A stopped stereo playback channel on the AIO line port. -/
def chan_line : sc_chinfo where
  ports := 1
  run := 0
  lvol := 0
  rvol := 0
  format := 2101248
  dir := PCMDIR.PCMDIR_PLAY
  data := fun _ => 0
  buffer := ⟨2048, 256, 0, 0⟩

/-- An idle AIO card at 48 kHz with one child holding `chan_line`. -/
def dev_idle : sc_info where
  type := 0
  speed := 48000
  period := 64
  ctrl_register := 0
  pbuf := fun _ => 0
  rbuf := fun _ => 0
  children_err := 0
  children := [⟨[chan_line]⟩]
  regs := []

/-- The card of `dev_idle` with its channel running. -/
def dev_busy : sc_info :=
  { dev_idle with children := [⟨[{ chan_line with run := 1 }]⟩] }

/-- The idle card of `dev_idle`, of a type that is neither AIO nor RayDAT. -/
def dev_other : sc_info :=
  { dev_idle with type := 2 }

/-! ## Specification-side definitions -/

/-- The nine supported rates, in table order. -/
def rates : List Nat :=
  [32000, 44100, 48000, 64000, 88200, 96000, 128000, 176400, 192000]

/-- The rate of entry `i` of `rate_map`. -/
def rate_entry (h : hdspe_h) (i : Nat) : Nat :=
  ((rate_map h).getD i ⟨0, 0⟩).speed

/-- The threshold of entry `i` of `rate_map`: the entry plus half of the
distance to its successor (integer right shift by one). -/
def rate_threshold (h : hdspe_h) (i : Nat) : Nat :=
  rate_entry h i + ((rate_entry h (i + 1) - rate_entry h i) >>> 1)

/-- Index in the rate table selected by the thresholds of the nearest-entry
loop. -/
def rate_index (speed : Nat) : Nat :=
  if speed < 38050 then 0
  else if speed < 46050 then 1
  else if speed < 56000 then 2
  else if speed < 76100 then 3
  else if speed < 92100 then 4
  else if speed < 112000 then 5
  else if speed < 152200 then 6
  else if speed < 184200 then 7
  else 8

/-- The rate selected by the thresholds of the nearest-entry loop. -/
def rate_by_threshold (speed : Nat) : Nat :=
  if speed < 38050 then 32000
  else if speed < 46050 then 44100
  else if speed < 56000 then 48000
  else if speed < 76100 then 64000
  else if speed < 92100 then 88200
  else if speed < 112000 then 96000
  else if speed < 152200 then 128000
  else if speed < 184200 then 176400
  else 192000

/-! ## Port catalogs and slot ranges -/

/-- The port flags of the AIO catalog, in catalog order. -/
def aio_ports (h : hdspe_h) : List Nat :=
  [h.HDSPE_CHAN_AIO_LINE, h.HDSPE_CHAN_AIO_PHONE, h.HDSPE_CHAN_AIO_AES,
    h.HDSPE_CHAN_AIO_SPDIF, h.HDSPE_CHAN_AIO_ADAT]

/-- The port flags of the RayDAT catalog, in catalog order. -/
def ray_ports (h : hdspe_h) : List Nat :=
  [h.HDSPE_CHAN_RAY_AES, h.HDSPE_CHAN_RAY_SPDIF, h.HDSPE_CHAN_RAY_ADAT1,
    h.HDSPE_CHAN_RAY_ADAT2, h.HDSPE_CHAN_RAY_ADAT3, h.HDSPE_CHAN_RAY_ADAT4]

/-- The tests `m & flag` of a mask against the flags of a catalog. -/
def mask_bits (cat : List Nat) (m : Nat) : List Bool :=
  cat.map (fun f => decide (m &&& f ≠ 0))

/-- The port flags are distinct bits: tested against the eleven flags in
order, flag number `k` is present at position `k` only. -/
def ports_distinct (h : hdspe_h) : Prop :=
  ∀ k, k < 11 → mask_bits (aio_ports h ++ ray_ports h) ((aio_ports h ++ ray_ports h).getD k 0) =
    (List.range 11).map (fun j => decide (j = k))

instance (h : hdspe_h) : Decidable (ports_distinct h) := by
  unfold ports_distinct
  exact inferInstance

/-- The slot range of a port mask at a stream width. -/
def slot_range (h : hdspe_h) (w m : Nat) : Finset Nat :=
  Finset.Ico (hdspe_channel_slot_base h w m)
    (hdspe_channel_slot_base h w m + hdspe_channel_slot_width h w m)

/-- The true entries of `b` are adjacent: `b` is a block of `false`, then a
block of `true`, then a block of `false`. -/
def is_run (b : List Bool) : Bool :=
  ((b.dropWhile (fun x => !x)).dropWhile (fun x => x)).all (fun x => !x)

/-- The mask `m` has at least one port of the catalog. -/
def has_port (cat : List Nat) (m : Nat) : Bool :=
  (mask_bits cat m).any (fun x => x)

/-- The ports of the catalog present in `m` are adjacent in catalog order. -/
def run_of_ports (cat : List Nat) (m : Nat) : Bool :=
  is_run (mask_bits cat m)

/-- The masks `m1` and `m2` share a port of the catalog. -/
def share_port (cat : List Nat) (m1 m2 : Nat) : Bool :=
  (List.zipWith (fun x y => x && y) (mask_bits cat m1) (mask_bits cat m2)).any (fun x => x)

/-- Slot base of an AIO mask from its five tests. -/
def slot_base_aio (l p a s d : Bool) : Nat :=
  if l then 0 else if p then 6 else if a then 8 else if s then 10 else if d then 12 else 0

/-- Slot width of an AIO mask from its five tests. -/
def slot_width_aio (w : Nat) (l p a s d : Bool) : Nat :=
  if l then 2
  else (if p then 2 else 0) + (if a then 2 else 0) + (if s then 2 else 0) + (if d then w else 0)

/-- Slot base of a RayDAT mask from its six tests. -/
def slot_base_ray (w : Nat) (a s r1 r2 r3 r4 : Bool) : Nat :=
  if a then 0 else if s then 2 else if r1 then 4 else if r2 then 4 + w
  else if r3 then 4 + 2 * w else if r4 then 4 + 3 * w else 0

/-- Slot width of a RayDAT mask from its six tests. -/
def slot_width_ray (w : Nat) (a s r1 r2 r3 r4 : Bool) : Nat :=
  (if a then 2 else 0) + (if s then 2 else 0) + (if r1 then w else 0) + (if r2 then w else 0) +
    (if r3 then w else 0) + (if r4 then w else 0)

/-- A running two-channel playback stream on the second RayDAT ADAT port. -/
def chan_adat2 : sc_chinfo where
  ports := 256
  run := 1
  lvol := 0
  rvol := 0
  format := 2101248
  dir := PCMDIR.PCMDIR_PLAY
  data := fun _ => 1
  buffer := ⟨1024, 128, 0, 0⟩

/-- A RayDAT card at 48 kHz with a period of 32 frames, one child holding
`chan_adat2`, and an all-zero play ring. -/
def dev_ray : sc_info where
  type := 1
  speed := 48000
  period := 32
  ctrl_register := 0
  pbuf := fun _ => 0
  rbuf := fun _ => 0
  children_err := 0
  children := [⟨[chan_adat2]⟩]
  regs := []

/-! ## Latency, trigger and zero-fill: specification-side definitions -/

/-- The AIO ports of a mask: the mask restricted to the flags of the AIO
catalog. -/
def aio_all (h : hdspe_h) : Nat :=
  h.HDSPE_CHAN_AIO_LINE ||| h.HDSPE_CHAN_AIO_PHONE ||| h.HDSPE_CHAN_AIO_AES |||
    h.HDSPE_CHAN_AIO_SPDIF ||| h.HDSPE_CHAN_AIO_ADAT

/-- The period table, in table order. -/
def periods : List Nat := [32, 64, 128, 256, 512, 1024, 2048, 4096]

/-- The clamp of `hdspechan_setblocksize`: a block size in bytes limited to
the latency range of the header. -/
def clamp_blocksize (h : hdspe_h) (blocksize : Nat) : Nat :=
  if blocksize > h.HDSPE_LAT_BYTES_MAX then h.HDSPE_LAT_BYTES_MAX
  else if blocksize < h.HDSPE_LAT_BYTES_MIN then h.HDSPE_LAT_BYTES_MIN
  else blocksize

/-- Index in the latency table selected by the thresholds of the
nearest-entry loop. -/
def period_index (samples : Nat) : Nat :=
  if samples < 48 then 0
  else if samples < 96 then 1
  else if samples < 192 then 2
  else if samples < 384 then 3
  else if samples < 768 then 4
  else if samples < 1536 then 5
  else if samples < 3072 then 6
  else 7

/-- The period selected by the thresholds of the nearest-entry loop. -/
def period_by_threshold (samples : Nat) : Nat :=
  if samples < 48 then 32
  else if samples < 96 then 64
  else if samples < 192 then 128
  else if samples < 384 then 256
  else if samples < 768 then 512
  else if samples < 1536 then 1024
  else if samples < 3072 then 2048
  else 4096

/-- Some channel of some child pcm device has its run flag set. -/
def some_running (sc : sc_info) : Prop :=
  ∃ scp ∈ sc.children, ∃ c ∈ scp.chan, c.run ≠ 0

instance (sc : sc_info) : Decidable (some_running sc) := by
  unfold some_running
  exact inferInstance

/-- The gain-matrix write of `hdspe_hw_mixer` for slot `t` (destination and
source both `t`) with value `v`, on a channel of direction `dir`. -/
def gain_write (h : hdspe_h) (dir : PCMDIR) (t v : Nat) : reg_write :=
  ⟨4, h.HDSPE_MIXER_BASE + ((if dir = PCMDIR.PCMDIR_PLAY then 64 else 0) + t + 128 * t) * 4, v⟩

/-- The sample index `x` lies in one of the slots `base, ..., base + width - 1`
of a ring with `HDSPE_CHANBUF_SAMPLES` samples per slot. -/
def in_slots (h : hdspe_h) (base width x : Nat) : Prop :=
  ∃ t, t < base + width ∧ base ≤ t ∧
    h.HDSPE_CHANBUF_SAMPLES * t ≤ x ∧ x < h.HDSPE_CHANBUF_SAMPLES * t + h.HDSPE_CHANBUF_SAMPLES

instance (h : hdspe_h) (base width x : Nat) : Decidable (in_slots h base width x) := by
  unfold in_slots
  exact inferInstance

/-- A stopped playback channel on the AIO ADAT port. -/
def chan_aio_adat : sc_chinfo where
  ports := 16
  run := 0
  lvol := 50
  rvol := 100
  format := 8392704
  dir := PCMDIR.PCMDIR_PLAY
  data := fun _ => 0
  buffer := ⟨2048, 256, 0, 0⟩

/-- An idle AIO card at 48 kHz with one child holding `chan_aio_adat` and a
play ring filled with ones. -/
def dev_adat48 : sc_info where
  type := 0
  speed := 48000
  period := 64
  ctrl_register := 0
  pbuf := fun _ => 1
  rbuf := fun _ => 1
  children_err := 0
  children := [⟨[chan_aio_adat]⟩]
  regs := []

/-- The card of `dev_adat48` at 192 kHz. -/
def dev_adat192 : sc_info :=
  { dev_adat48 with speed := 192000 }

/-- The shared ring of a direction: the play ring for playback, the record
ring for capture. -/
def sc_info.ring (sc : sc_info) (dir : PCMDIR) : Nat → Nat :=
  if dir = PCMDIR.PCMDIR_PLAY then sc.pbuf else sc.rbuf

/-- The ring `buf` with every sample of the slots `base, ..., base + width - 1`
set to zero. -/
def zero_slots (h : hdspe_h) (base width : Nat) (buf : Nat → Nat) : Nat → Nat :=
  fun x => if in_slots h base width x then 0 else buf x

/-! ## Rate bands: specification-side definitions -/

/-- The divisor of the DDS value in `hdspechan_setspeed`: the resolved rate
divided by 4 above 96000, by 2 above 48000, unchanged otherwise. -/
def hdspechan_setspeed_divisor (speed : Nat) : Nat :=
  if speed > 96000 then speed / 4
  else if speed > 48000 then speed / 2
  else speed

/-- The frequency bits of the control word are distinct: the double and the
quad bit are non-zero and share no bit with each other or with the three
base-rate codes. -/
def freq_bits_distinct (h : hdspe_h) : Prop :=
  h.HDSPE_FREQ_DOUBLE ≠ 0 ∧ h.HDSPE_FREQ_QUAD ≠ 0 ∧
  h.HDSPE_FREQ_DOUBLE &&& h.HDSPE_FREQ_QUAD = 0 ∧
  h.HDSPE_FREQ_QUAD &&& h.HDSPE_FREQ_DOUBLE = 0 ∧
  h.HDSPE_FREQ_32000 &&& h.HDSPE_FREQ_DOUBLE = 0 ∧
  h.HDSPE_FREQ_44100 &&& h.HDSPE_FREQ_DOUBLE = 0 ∧
  h.HDSPE_FREQ_48000 &&& h.HDSPE_FREQ_DOUBLE = 0 ∧
  h.HDSPE_FREQ_32000 &&& h.HDSPE_FREQ_QUAD = 0 ∧
  h.HDSPE_FREQ_44100 &&& h.HDSPE_FREQ_QUAD = 0 ∧
  h.HDSPE_FREQ_48000 &&& h.HDSPE_FREQ_QUAD = 0

instance (h : hdspe_h) : Decidable (freq_bits_distinct h) := by
  unfold freq_bits_distinct
  exact inferInstance

/-! ## Rate resolver: lemmas -/

theorem setspeed_equal_loop (h : hdspe_h) (speed : Nat) :
    hdspechan_setspeed_equal speed (rate_map h) none =
      if speed ∈ rates then (rate_map h).get? (rate_index speed) else none := by
  unfold rates
  by_cases hm : speed ∈ [32000, 44100, 48000, 64000, 88200, 96000, 128000, 176400, 192000]
  · rw [if_pos hm]
    simp only [List.mem_cons, List.mem_singleton, List.not_mem_nil, or_false] at hm
    rcases hm with h1 | h1 | h1 | h1 | h1 | h1 | h1 | h1 | h1 <;> subst h1 <;>
      simp [rate_map, hdspechan_setspeed_equal, rate_index]
  · rw [if_neg hm]
    simp only [List.mem_cons, List.mem_singleton, List.not_mem_nil, or_false, not_or] at hm
    obtain ⟨h1, h2, h3, h4, h5, h6, h7, h8, h9⟩ := hm
    simp [rate_map, hdspechan_setspeed_equal, Ne.symm h1, Ne.symm h2, Ne.symm h3, Ne.symm h4,
      Ne.symm h5, Ne.symm h6, Ne.symm h7, Ne.symm h8, Ne.symm h9]

theorem setspeed_nearest_loop (h : hdspe_h) (speed : Nat) :
    hdspechan_setspeed_nearest speed (rate_map h) none =
      (rate_map h).get? (rate_index speed) := by
  simp only [rate_map, hdspechan_setspeed_nearest, List.headD_cons, Nat.shiftRight_eq_div_pow]
  norm_num
  unfold rate_index
  split_ifs <;> simp

theorem rate_map_index (h : hdspe_h) (speed : Nat) :
    ∃ e, (rate_map h).get? (rate_index speed) = some e ∧
      e.speed = rate_by_threshold speed := by
  unfold rate_index rate_by_threshold
  split_ifs <;> simp [rate_map]

theorem setspeed_hr_eq (h : hdspe_h) (speed : Nat) :
    hdspechan_setspeed_hr h speed = (rate_map h).get? (rate_index speed) := by
  unfold hdspechan_setspeed_hr
  rw [setspeed_equal_loop, setspeed_nearest_loop]
  obtain ⟨e, he, -⟩ := rate_map_index h speed
  rw [he]
  split_ifs <;> rfl

/-- On an idle AIO or RayDAT card the returned and the stored rate are the
rate selected by the thresholds. -/
theorem setspeed_idle_supported (h : hdspe_h) (sc : sc_info) (speed : Nat)
    (hidle : hdspe_running sc = 0)
    (htype : sc.type = h.HDSPE_RAYDAT ∨ sc.type = hdspe_h.HDSPE_AIO h) :
    (hdspechan_setspeed h sc speed).2 = rate_by_threshold speed ∧
      (hdspechan_setspeed h sc speed).1.speed = rate_by_threshold speed := by
  obtain ⟨e, he, hs⟩ := rate_map_index h speed
  unfold hdspechan_setspeed
  rw [setspeed_hr_eq, he]
  simp [hidle, htype, hs]

theorem rate_by_threshold_mem (speed : Nat) : rate_by_threshold speed ∈ rates := by
  unfold rate_by_threshold rates
  split_ifs <;> simp

theorem rate_by_threshold_nearest (speed e : Nat) (he : e ∈ rates) :
    |(rate_by_threshold speed : ℤ) - (speed : ℤ)| ≤ |(e : ℤ) - (speed : ℤ)| := by
  simp only [rates, List.mem_cons, List.mem_singleton, List.not_mem_nil, or_false] at he
  simp only [← Int.natCast_natAbs, Int.ofNat_le]
  unfold rate_by_threshold
  split_ifs <;> push_cast <;> omega

theorem rate_by_threshold_self (e : Nat) (he : e ∈ rates) : rate_by_threshold e = e := by
  simp only [rates, List.mem_cons, List.mem_singleton, List.not_mem_nil, or_false] at he
  rcases he with h1 | h1 | h1 | h1 | h1 | h1 | h1 | h1 | h1 <;> subst h1 <;> rfl

theorem running_of_run (sc : sc_info)
    (hrun : ∃ scp ∈ sc.children, ∃ ch ∈ scp.chan, ch.run ≠ 0) :
    hdspe_running sc = 1 := by
  obtain ⟨scp, hscp, ch, hch, hr⟩ := hrun
  have hany : sc.children.any (fun scp => scp.chan.any (fun ch => ch.run ≠ 0)) = true := by
    rw [List.any_eq_true]
    refine ⟨scp, hscp, ?_⟩
    rw [List.any_eq_true]
    exact ⟨ch, hch, by simpa using hr⟩
  unfold hdspe_running
  rw [if_pos hany]
  split_ifs <;> rfl

theorem rate_entry_vals (h : hdspe_h) :
    rate_entry h 0 = 32000 ∧ rate_entry h 1 = 44100 ∧ rate_entry h 2 = 48000 ∧
    rate_entry h 3 = 64000 ∧ rate_entry h 4 = 88200 ∧ rate_entry h 5 = 96000 ∧
    rate_entry h 6 = 128000 ∧ rate_entry h 7 = 176400 ∧ rate_entry h 8 = 192000 :=
  ⟨rfl, rfl, rfl, rfl, rfl, rfl, rfl, rfl, rfl⟩

theorem rate_threshold_vals (h : hdspe_h) :
    rate_threshold h 0 = 38050 ∧ rate_threshold h 1 = 46050 ∧ rate_threshold h 2 = 56000 ∧
    rate_threshold h 3 = 76100 ∧ rate_threshold h 4 = 92100 ∧ rate_threshold h 5 = 112000 ∧
    rate_threshold h 6 = 152200 ∧ rate_threshold h 7 = 184200 := by
  obtain ⟨e0, e1, e2, e3, e4, e5, e6, e7, e8⟩ := rate_entry_vals h
  simp only [rate_threshold, e0, e1, e2, e3, e4, e5, e6, e7, e8, Nat.shiftRight_eq_div_pow]
  norm_num

theorem rate_by_threshold_cases (v : Nat) :
    (v < 38050 ∧ rate_by_threshold v = 32000) ∨
    (38050 ≤ v ∧ v < 46050 ∧ rate_by_threshold v = 44100) ∨
    (46050 ≤ v ∧ v < 56000 ∧ rate_by_threshold v = 48000) ∨
    (56000 ≤ v ∧ v < 76100 ∧ rate_by_threshold v = 64000) ∨
    (76100 ≤ v ∧ v < 92100 ∧ rate_by_threshold v = 88200) ∨
    (92100 ≤ v ∧ v < 112000 ∧ rate_by_threshold v = 96000) ∨
    (112000 ≤ v ∧ v < 152200 ∧ rate_by_threshold v = 128000) ∨
    (152200 ≤ v ∧ v < 184200 ∧ rate_by_threshold v = 176400) ∨
    (184200 ≤ v ∧ rate_by_threshold v = 192000) := by
  unfold rate_by_threshold
  split_ifs <;> omega

theorem rate_by_threshold_below (h : hdspe_h) (i v : Nat) (hi : i < 8)
    (hlo : i = 0 ∨ rate_threshold h (i - 1) ≤ v) (hhi : v < rate_threshold h i) :
    rate_by_threshold v = rate_entry h i := by
  obtain ⟨e0, e1, e2, e3, e4, e5, e6, e7, e8⟩ := rate_entry_vals h
  obtain ⟨t0, t1, t2, t3, t4, t5, t6, t7⟩ := rate_threshold_vals h
  have hs := rate_by_threshold_cases v
  interval_cases i <;>
    simp only [Nat.reduceSub, t0, t1, t2, t3, t4, t5, t6, t7, e0, e1, e2, e3,
      e4, e5, e6, e7, e8] at hlo hhi ⊢ <;>
    omega

theorem rate_by_threshold_upto (h : hdspe_h) (j v : Nat) (hj0 : 0 < j) (hj : j ≤ 8)
    (hlo : rate_threshold h (j - 1) ≤ v) (hhi : j = 8 ∨ v < rate_threshold h j) :
    rate_by_threshold v = rate_entry h j := by
  obtain ⟨e0, e1, e2, e3, e4, e5, e6, e7, e8⟩ := rate_entry_vals h
  obtain ⟨t0, t1, t2, t3, t4, t5, t6, t7⟩ := rate_threshold_vals h
  have hs := rate_by_threshold_cases v
  rcases Nat.lt_or_ge j 8 with h8 | h8
  · have hhi1 := hhi.resolve_left (by omega)
    clear hhi
    interval_cases j <;>
      simp only [Nat.reduceSub, t0, t1, t2, t3, t4, t5, t6, t7, e0, e1, e2, e3,
        e4, e5, e6, e7, e8] at hlo hhi1 ⊢ <;>
      omega
  · have h8e : j = 8 := by omega
    subst h8e
    simp only [Nat.reduceSub, t7, e8] at hlo ⊢
    omega

theorem rate_by_threshold_above (h : hdspe_h) (i v : Nat) (hi : i < 8)
    (hlo : rate_threshold h i ≤ v) (hhi : i = 7 ∨ v < rate_threshold h (i + 1)) :
    rate_by_threshold v = rate_entry h (i + 1) := by
  apply rate_by_threshold_upto h (i + 1) v (by omega) (by omega)
  · simpa using hlo
  · rcases hhi with h7 | h7
    · left; omega
    · right; exact h7

/-! ## Rate resolver: theorems -/

/-- C1: on an idle AIO or RayDAT card, for every requested rate,
`hdspechan_setspeed` returns, and stores in `sc->speed`, an entry of the
nine-entry rate table whose distance to the requested rate is minimal over
the table; 32000 gives 32000, 50000 gives 48000, 200000 gives 192000 and
every table entry gives itself. -/
theorem setspeed_nearest_rate (h : hdspe_h) (sc : sc_info) (speed : Nat)
    (hidle : hdspe_running sc = 0)
    (htype : sc.type = h.HDSPE_RAYDAT ∨ sc.type = hdspe_h.HDSPE_AIO h) :
    (rate_map h).map hdspe_rate.speed = rates ++ [0] ∧
    (hdspechan_setspeed h sc speed).1.speed = (hdspechan_setspeed h sc speed).2 ∧
    (hdspechan_setspeed h sc speed).2 ∈ rates ∧
    (∀ e ∈ rates, |((hdspechan_setspeed h sc speed).2 : ℤ) - (speed : ℤ)| ≤
      |(e : ℤ) - (speed : ℤ)|) ∧
    (hdspechan_setspeed h sc 32000).2 = 32000 ∧
    (hdspechan_setspeed h sc 50000).2 = 48000 ∧
    (hdspechan_setspeed h sc 200000).2 = 192000 ∧
    (∀ e ∈ rates, (hdspechan_setspeed h sc e).2 = e) := by
  have key := fun v => setspeed_idle_supported h sc v hidle htype
  refine ⟨rfl, ?_, ?_, ?_, ?_, ?_, ?_, ?_⟩
  · rw [(key speed).1, (key speed).2]
  · rw [(key speed).1]; exact rate_by_threshold_mem speed
  · intro e he
    rw [(key speed).1]; exact rate_by_threshold_nearest speed e he
  · rw [(key 32000).1]; rfl
  · rw [(key 50000).1]; rfl
  · rw [(key 200000).1]; rfl
  · intro e he
    rw [(key e).1]; exact rate_by_threshold_self e he

/-- Witness of C1 on the idle AIO card, for a request of 50000 Hz. -/
theorem setspeed_nearest_rate_witness :
    hdspe_running dev_idle = 0 ∧
    (dev_idle.type = hdr0.HDSPE_RAYDAT ∨ dev_idle.type = hdspe_h.HDSPE_AIO hdr0) ∧
    (hdspechan_setspeed hdr0 dev_idle 50000).2 ∈ rates ∧
    (hdspechan_setspeed hdr0 dev_idle 50000).2 = 48000 :=
  ⟨by decide, by decide,
    (setspeed_nearest_rate hdr0 dev_idle 50000 (by decide) (by decide)).2.2.1,
    (setspeed_nearest_rate hdr0 dev_idle 50000 (by decide) (by decide)).2.2.2.2.2.1⟩

/-- Counterexample to C2 as stated: 46050 is exactly halfway between 44100
and 48000, and on the idle AIO card it resolves to 48000, not to the lower
entry 44100. -/
theorem setspeed_tie_lower_counterexample :
    hdspe_running dev_idle = 0 ∧ dev_idle.type = hdspe_h.HDSPE_AIO hdr0 ∧
    (44100, 48000) ∈ List.zip rates rates.tail ∧
    44100 + (48000 - 44100) / 2 = 46050 ∧
    (hdspechan_setspeed hdr0 dev_idle 46050).2 = 48000 ∧
    (hdspechan_setspeed hdr0 dev_idle 46050).2 ≠ 44100 := by
  have key := (setspeed_idle_supported hdr0 dev_idle 46050 (by decide) (by decide)).1
  refine ⟨by decide, by decide, by decide, by decide, ?_, ?_⟩
  · rw [key]; rfl
  · rw [key]; decide

/-- C2, amended: for every pair of adjacent rate-table entries `lo < hi`, a
request exactly halfway between them, `lo + (hi - lo) / 2`, resolves on an
idle AIO or RayDAT card to the higher entry `hi`. -/
theorem setspeed_tie_higher (h : hdspe_h) (sc : sc_info) (lo hi : Nat)
    (hidle : hdspe_running sc = 0)
    (htype : sc.type = h.HDSPE_RAYDAT ∨ sc.type = hdspe_h.HDSPE_AIO h)
    (hadj : (lo, hi) ∈ List.zip rates rates.tail) :
    lo < hi ∧ (hdspechan_setspeed h sc (lo + (hi - lo) / 2)).2 = hi ∧
      (hdspechan_setspeed h sc (lo + (hi - lo) / 2)).1.speed = hi := by
  rw [(setspeed_idle_supported h sc _ hidle htype).1,
    (setspeed_idle_supported h sc _ hidle htype).2]
  simp only [rates, List.tail_cons, List.zip_cons_cons, List.zip_nil_right, List.mem_cons,
    Prod.mk.injEq, List.not_mem_nil, or_false] at hadj
  rcases hadj with ⟨h1, h2⟩ | ⟨h1, h2⟩ | ⟨h1, h2⟩ | ⟨h1, h2⟩ | ⟨h1, h2⟩ | ⟨h1, h2⟩ |
    ⟨h1, h2⟩ | ⟨h1, h2⟩ <;> subst h1 <;> subst h2 <;> decide

/-- Witness of the amended C2 on the idle AIO card, for 44100 and 48000. -/
theorem setspeed_tie_higher_witness :
    hdspe_running dev_idle = 0 ∧ (44100, 48000) ∈ List.zip rates rates.tail ∧
    (hdspechan_setspeed hdr0 dev_idle (44100 + (48000 - 44100) / 2)).2 = 48000 :=
  ⟨by decide, by decide,
    (setspeed_tie_higher hdr0 dev_idle 44100 48000 (by decide) (by decide) (by decide)).2.1⟩

/-- C3: with `t i = e + ((e' - e) >> 1)` the threshold of the non-last entry
`e` with successor `e'`, on an idle AIO or RayDAT card every requested rate
from the previous threshold (from 0 for the first entry) up to but excluding
`t i` resolves to `e`, every requested rate from `t i` up to but excluding
the next threshold (unbounded when `e'` is the last entry) resolves to `e'`;
46049 gives 44100, 46050 gives 48000, and every rate at or above the last
threshold gives 192000. -/
theorem setspeed_threshold_rule (h : hdspe_h) (sc : sc_info)
    (hidle : hdspe_running sc = 0)
    (htype : sc.type = h.HDSPE_RAYDAT ∨ sc.type = hdspe_h.HDSPE_AIO h) :
    (∀ i v, i < 8 → (i = 0 ∨ rate_threshold h (i - 1) ≤ v) → v < rate_threshold h i →
      (hdspechan_setspeed h sc v).2 = rate_entry h i) ∧
    (∀ i v, i < 8 → rate_threshold h i ≤ v → (i = 7 ∨ v < rate_threshold h (i + 1)) →
      (hdspechan_setspeed h sc v).2 = rate_entry h (i + 1)) ∧
    (hdspechan_setspeed h sc 46049).2 = 44100 ∧
    (hdspechan_setspeed h sc 46050).2 = 48000 ∧
    (∀ v, rate_threshold h 7 ≤ v → (hdspechan_setspeed h sc v).2 = 192000) := by
  have key := fun v => (setspeed_idle_supported h sc v hidle htype).1
  refine ⟨?_, ?_, ?_, ?_, ?_⟩
  · intro i v hi hlo hhi
    rw [key v]
    exact rate_by_threshold_below h i v hi hlo hhi
  · intro i v hi hlo hhi
    rw [key v]
    exact rate_by_threshold_above h i v hi hlo hhi
  · rw [key]; rfl
  · rw [key]; rfl
  · intro v hv
    rw [key v]
    rw [(rate_threshold_vals h).2.2.2.2.2.2.2] at hv
    unfold rate_by_threshold
    split_ifs <;> omega

/-- Witness of C3 on the idle AIO card. -/
theorem setspeed_threshold_rule_witness :
    hdspe_running dev_idle = 0 ∧
    (hdspechan_setspeed hdr0 dev_idle 46049).2 = 44100 ∧
    (hdspechan_setspeed hdr0 dev_idle 46050).2 = 48000 :=
  ⟨by decide,
    (setspeed_threshold_rule hdr0 dev_idle (by decide) (by decide)).2.2.1,
    (setspeed_threshold_rule hdr0 dev_idle (by decide) (by decide)).2.2.2.1⟩

/-- C4: when some channel of some child pcm device has its run flag set,
`hdspe_running` returns 1, and for every requested rate and block size
`hdspechan_setspeed` and `hdspechan_setblocksize` leave the whole device
state unchanged (rate, period, control word, channel buffers, log of register
writes) and return the current rate, respectively the current block size of
the channel buffer. -/
theorem busy_rejection (h : hdspe_h) (sc : sc_info) (speed blocksize i j : Nat)
    (ch : sc_chinfo) (hch : sc.getch i j = some ch)
    (hrun : ∃ scp ∈ sc.children, ∃ c ∈ scp.chan, c.run ≠ 0) :
    hdspe_running sc = 1 ∧
    hdspechan_setspeed h sc speed = (sc, sc.speed) ∧
    hdspechan_setblocksize h sc i j blocksize = (sc, ch.buffer.blksz) := by
  have hr := running_of_run sc hrun
  refine ⟨hr, ?_, ?_⟩
  · simp [hdspechan_setspeed, hr]
  · simp [hdspechan_setblocksize, hch, hr]

/-- Witness of C4 on the busy AIO card. -/
theorem busy_rejection_witness :
    dev_busy.getch 0 0 = some { chan_line with run := 1 } ∧
    (∃ scp ∈ dev_busy.children, ∃ c ∈ scp.chan, c.run ≠ 0) ∧
    hdspechan_setspeed hdr0 dev_busy 96000 = (dev_busy, 48000) ∧
    hdspechan_setblocksize hdr0 dev_busy 0 0 1024 = (dev_busy, 256) :=
  ⟨rfl, ⟨_, List.mem_singleton.2 rfl, _, List.mem_singleton.2 rfl, by decide⟩,
    (busy_rejection hdr0 dev_busy 96000 1024 0 0 { chan_line with run := 1 } rfl
      ⟨_, List.mem_singleton.2 rfl, _, List.mem_singleton.2 rfl, by decide⟩).2.1,
    (busy_rejection hdr0 dev_busy 96000 1024 0 0 { chan_line with run := 1 } rfl
      ⟨_, List.mem_singleton.2 rfl, _, List.mem_singleton.2 rfl, by decide⟩).2.2⟩

/-- C10: on an idle card whose type is neither `HDSPE_RAYDAT` nor
`HDSPE_AIO`, for every requested rate `hdspechan_setspeed` leaves the whole
device state unchanged (rate, control word, log of register writes) and
returns the current `sc->speed`. -/
theorem setspeed_unsupported (h : hdspe_h) (sc : sc_info) (speed : Nat)
    (hidle : hdspe_running sc = 0)
    (hray : sc.type ≠ h.HDSPE_RAYDAT) (haio : sc.type ≠ hdspe_h.HDSPE_AIO h) :
    hdspechan_setspeed h sc speed = (sc, sc.speed) := by
  simp [hdspechan_setspeed, hidle, hray, haio]

/-- Witness of C10 on the idle card of another type. -/
theorem setspeed_unsupported_witness :
    hdspe_running dev_other = 0 ∧ dev_other.type ≠ hdr0.HDSPE_RAYDAT ∧
    dev_other.type ≠ hdspe_h.HDSPE_AIO hdr0 ∧
    hdspechan_setspeed hdr0 dev_other 96000 = (dev_other, 48000) :=
  ⟨by decide, by decide, by decide,
    setspeed_unsupported hdr0 dev_other 96000 (by decide) (by decide) (by decide)⟩

/-! ## Ring-buffer codec: lemmas -/

theorem foldl_update_spec (n : Nat) (f g F orig : Nat → Nat)
    (hg : ∀ s, s < n → g s = F (f s)) (x : Nat) :
    ((List.range n).foldl (fun d s => Function.update d (f s) (g s)) orig) x =
      if ∃ s, s < n ∧ x = f s then F x else orig x := by
  induction n with
  | zero => simp
  | succ n ih =>
    rw [List.range_succ, List.foldl_append, List.foldl_cons, List.foldl_nil,
      Function.update_apply, ih (fun s hs => hg s (Nat.lt_succ_of_lt hs))]
    by_cases hx : x = f n
    · rw [if_pos hx, if_pos ⟨n, Nat.lt_succ_self n, hx⟩, hx, hg n (Nat.lt_succ_self n)]
    · rw [if_neg hx]
      by_cases he : ∃ s, s < n ∧ x = f s
      · obtain ⟨s, hs, hxs⟩ := he
        rw [if_pos ⟨s, hs, hxs⟩, if_pos ⟨s, Nat.lt_succ_of_lt hs, hxs⟩]
      · rw [if_neg he, if_neg]
        rintro ⟨s, hs, hxs⟩
        rcases Nat.lt_succ_iff_lt_or_eq.1 hs with h1 | h1
        · exact he ⟨s, h1, hxs⟩
        · exact hx (h1 ▸ hxs)

theorem buffer_mux_write_spec (h : hdspe_h) (pcm : Nat → Nat) (slots channels samples : Nat) :
    ∀ (dma : Nat → Nat) (pos : Nat), pos < h.HDSPE_CHANBUF_SAMPLES → ∀ x,
      buffer_mux_write h dma pcm pos samples slots channels x =
        if ∃ k, k < samples ∧ ∃ s, s < slots ∧
            x = s * h.HDSPE_CHANBUF_SAMPLES + (pos + k) % h.HDSPE_CHANBUF_SAMPLES
        then pcm ((x % h.HDSPE_CHANBUF_SAMPLES) * channels + x / h.HDSPE_CHANBUF_SAMPLES)
        else dma x := by
  induction samples with
  | zero => intro dma pos _ x; simp [buffer_mux_write]
  | succ n ih =>
    intro dma pos hpos x
    have hS : 0 < h.HDSPE_CHANBUF_SAMPLES := Nat.lt_of_le_of_lt (Nat.zero_le _) hpos
    rw [buffer_mux_write, ih _ _ (Nat.mod_lt _ hS) x]
    rw [foldl_update_spec slots (fun s => s * h.HDSPE_CHANBUF_SAMPLES + pos)
      (fun s => pcm (pos * channels + s))
      (fun y => pcm ((y % h.HDSPE_CHANBUF_SAMPLES) * channels + y / h.HDSPE_CHANBUF_SAMPLES))]
    · by_cases h1 : ∃ k, k < n ∧ ∃ s, s < slots ∧ x = s * h.HDSPE_CHANBUF_SAMPLES +
          ((pos + 1) % h.HDSPE_CHANBUF_SAMPLES + k) % h.HDSPE_CHANBUF_SAMPLES
      · rw [if_pos h1, if_pos]
        obtain ⟨k, hk, s, hs, hx⟩ := h1
        refine ⟨k + 1, by omega, s, hs, ?_⟩
        rw [hx, Nat.mod_add_mod]
        congr 2
        omega
      · rw [if_neg h1]
        by_cases h2 : ∃ s, s < slots ∧ x = s * h.HDSPE_CHANBUF_SAMPLES + pos
        · rw [if_pos h2, if_pos]
          obtain ⟨s, hs, hx⟩ := h2
          exact ⟨0, by omega, s, hs, by rw [hx, Nat.add_zero, Nat.mod_eq_of_lt hpos]⟩
        · rw [if_neg h2, if_neg]
          rintro ⟨k, hk, s, hs, hx⟩
          rcases Nat.eq_zero_or_pos k with h0 | h0
          · subst h0
            rw [Nat.add_zero, Nat.mod_eq_of_lt hpos] at hx
            exact h2 ⟨s, hs, hx⟩
          · apply h1
            refine ⟨k - 1, by omega, s, hs, ?_⟩
            rw [hx, Nat.mod_add_mod]
            congr 2
            omega
    · intro s _
      show pcm (pos * channels + s) = pcm _
      rw [Nat.mul_add_mod_of_lt hpos, Nat.add_comm (s * _), Nat.add_mul_div_right _ _ hS,
        Nat.div_eq_of_lt hpos, Nat.zero_add]

theorem buffer_demux_read_of_mux (h : hdspe_h) (dma pcm : Nat → Nat)
    (slots channels samples : Nat) :
    ∀ (pcm2 : Nat → Nat) (pos : Nat), pos < h.HDSPE_CHANBUF_SAMPLES →
      (∀ k s, k < samples → s < slots →
        dma (s * h.HDSPE_CHANBUF_SAMPLES + (pos + k) % h.HDSPE_CHANBUF_SAMPLES) =
          pcm (((pos + k) % h.HDSPE_CHANBUF_SAMPLES) * channels + s)) →
      ∀ x, buffer_demux_read h dma pcm2 pos samples slots channels x =
        if ∃ k, k < samples ∧ ∃ s, s < slots ∧
            x = ((pos + k) % h.HDSPE_CHANBUF_SAMPLES) * channels + s
        then pcm x else pcm2 x := by
  induction samples with
  | zero => intro pcm2 pos _ _ x; simp [buffer_demux_read]
  | succ n ih =>
    intro pcm2 pos hpos hdma x
    have hS : 0 < h.HDSPE_CHANBUF_SAMPLES := Nat.lt_of_le_of_lt (Nat.zero_le _) hpos
    have hstep : ∀ k, ((pos + 1) % h.HDSPE_CHANBUF_SAMPLES + k) % h.HDSPE_CHANBUF_SAMPLES =
        (pos + (k + 1)) % h.HDSPE_CHANBUF_SAMPLES := by
      intro k
      rw [Nat.mod_add_mod]
      congr 1
      omega
    rw [buffer_demux_read, ih _ _ (Nat.mod_lt _ hS) ?_ x]
    · rw [foldl_update_spec slots (fun s => pos * channels + s)
        (fun s => dma (s * h.HDSPE_CHANBUF_SAMPLES + pos)) pcm]
      · by_cases h1 : ∃ k, k < n ∧ ∃ s, s < slots ∧
            x = (((pos + 1) % h.HDSPE_CHANBUF_SAMPLES + k) % h.HDSPE_CHANBUF_SAMPLES) *
              channels + s
        · rw [if_pos h1, if_pos]
          obtain ⟨k, hk, s, hs, hx⟩ := h1
          exact ⟨k + 1, by omega, s, hs, by rw [hx, hstep]⟩
        · rw [if_neg h1]
          by_cases h2 : ∃ s, s < slots ∧ x = pos * channels + s
          · rw [if_pos h2, if_pos]
            obtain ⟨s, hs, hx⟩ := h2
            exact ⟨0, by omega, s, hs, by rw [hx, Nat.add_zero, Nat.mod_eq_of_lt hpos]⟩
          · rw [if_neg h2, if_neg]
            rintro ⟨k, hk, s, hs, hx⟩
            rcases Nat.eq_zero_or_pos k with h0 | h0
            · subst h0
              rw [Nat.add_zero, Nat.mod_eq_of_lt hpos] at hx
              exact h2 ⟨s, hs, hx⟩
            · apply h1
              refine ⟨k - 1, by omega, s, hs, ?_⟩
              rw [hx, hstep]
              congr 3
              omega
      · intro s hs
        have := hdma 0 s (by omega) hs
        rw [Nat.add_zero, Nat.mod_eq_of_lt hpos] at this
        exact this
    · intro k s hk hs
      rw [hstep]
      exact hdma (k + 1) s (by omega) hs

/-! ## Port layout: lemmas -/

theorem ico_disjoint_iff (a b c d : Nat) :
    Disjoint (Finset.Ico a b) (Finset.Ico c d) ↔ min b d ≤ max a c := by
  rw [← Finset.disjoint_coe, Finset.coe_Ico, Finset.coe_Ico, Set.Ico_disjoint_Ico]

theorem single_port_values (h : hdspe_h) (hd : ports_distinct h) (w : Nat)
    (hw : w = 2 ∨ w = 4 ∨ w = 8) :
    (aio_ports h).map
        (fun p => (hdspe_channel_slot_base h w p, hdspe_channel_slot_width h w p)) =
      [(0, 2), (6, 2), (8, 2), (10, 2), (12, w)] ∧
    (ray_ports h).map
        (fun p => (hdspe_channel_slot_base h w p, hdspe_channel_slot_width h w p)) =
      [(0, 2), (2, 2), (4, w), (4 + w, w), (4 + 2 * w, w), (4 + 3 * w, w)] := by
  have h0 := hd 0 (by norm_num)
  have h1 := hd 1 (by norm_num)
  have h2 := hd 2 (by norm_num)
  have h3 := hd 3 (by norm_num)
  have h4 := hd 4 (by norm_num)
  have h5 := hd 5 (by norm_num)
  have h6 := hd 6 (by norm_num)
  have h7 := hd 7 (by norm_num)
  have h8 := hd 8 (by norm_num)
  have h9 := hd 9 (by norm_num)
  have h10 := hd 10 (by norm_num)
  simp [mask_bits, aio_ports, ray_ports, List.range, List.range.loop] at h0 h1 h2 h3 h4 h5 h6 h7 h8 h9 h10
  rcases hw with rfl | rfl | rfl <;>
    simp [aio_ports, ray_ports, hdspe_channel_slot_base, hdspe_channel_slot_width, h0, h1, h2,
      h3, h4, h5, h6, h7, h8, h9, h10]

theorem slot_aio_eq (h : hdspe_h) (w m : Nat) (hw : 0 < w)
    (hm : has_port (aio_ports h) m = true) :
    hdspe_channel_slot_base h w m =
      slot_base_aio (decide (m &&& h.HDSPE_CHAN_AIO_LINE ≠ 0))
        (decide (m &&& h.HDSPE_CHAN_AIO_PHONE ≠ 0)) (decide (m &&& h.HDSPE_CHAN_AIO_AES ≠ 0))
        (decide (m &&& h.HDSPE_CHAN_AIO_SPDIF ≠ 0)) (decide (m &&& h.HDSPE_CHAN_AIO_ADAT ≠ 0)) ∧
    hdspe_channel_slot_width h w m =
      slot_width_aio w (decide (m &&& h.HDSPE_CHAN_AIO_LINE ≠ 0))
        (decide (m &&& h.HDSPE_CHAN_AIO_PHONE ≠ 0)) (decide (m &&& h.HDSPE_CHAN_AIO_AES ≠ 0))
        (decide (m &&& h.HDSPE_CHAN_AIO_SPDIF ≠ 0)) (decide (m &&& h.HDSPE_CHAN_AIO_ADAT ≠ 0)) := by
  simp only [has_port, mask_bits, aio_ports, List.map_cons, List.map_nil, List.any_cons,
    List.any_nil, Bool.or_false, Bool.or_eq_true, decide_eq_true_eq] at hm
  unfold hdspe_channel_slot_base hdspe_channel_slot_width slot_base_aio slot_width_aio
  by_cases h1 : m &&& h.HDSPE_CHAN_AIO_LINE = 0 <;>
  by_cases h2 : m &&& h.HDSPE_CHAN_AIO_PHONE = 0 <;>
  by_cases h3 : m &&& h.HDSPE_CHAN_AIO_AES = 0 <;>
  by_cases h4 : m &&& h.HDSPE_CHAN_AIO_SPDIF = 0 <;>
  by_cases h5 : m &&& h.HDSPE_CHAN_AIO_ADAT = 0 <;>
  simp [h1, h2, h3, h4, h5] at hm ⊢ <;> omega

theorem slot_ray_eq (h : hdspe_h) (w m : Nat)
    (hm : has_port (aio_ports h) m = false) :
    hdspe_channel_slot_base h w m =
      slot_base_ray w (decide (m &&& h.HDSPE_CHAN_RAY_AES ≠ 0))
        (decide (m &&& h.HDSPE_CHAN_RAY_SPDIF ≠ 0)) (decide (m &&& h.HDSPE_CHAN_RAY_ADAT1 ≠ 0))
        (decide (m &&& h.HDSPE_CHAN_RAY_ADAT2 ≠ 0)) (decide (m &&& h.HDSPE_CHAN_RAY_ADAT3 ≠ 0))
        (decide (m &&& h.HDSPE_CHAN_RAY_ADAT4 ≠ 0)) ∧
    hdspe_channel_slot_width h w m =
      slot_width_ray w (decide (m &&& h.HDSPE_CHAN_RAY_AES ≠ 0))
        (decide (m &&& h.HDSPE_CHAN_RAY_SPDIF ≠ 0)) (decide (m &&& h.HDSPE_CHAN_RAY_ADAT1 ≠ 0))
        (decide (m &&& h.HDSPE_CHAN_RAY_ADAT2 ≠ 0)) (decide (m &&& h.HDSPE_CHAN_RAY_ADAT3 ≠ 0))
        (decide (m &&& h.HDSPE_CHAN_RAY_ADAT4 ≠ 0)) := by
  simp only [has_port, mask_bits, aio_ports, List.map_cons, List.map_nil, List.any_cons,
    List.any_nil, Bool.or_false, Bool.or_eq_false_iff, decide_eq_false_iff_not, not_not, ne_eq]
    at hm
  obtain ⟨h1, h2, h3, h4, h5⟩ := hm
  unfold hdspe_channel_slot_base hdspe_channel_slot_width slot_base_ray slot_width_ray
  simp only [h1, h2, h3, h4, h5, ne_eq, not_true_eq_false, if_false]
  by_cases g1 : m &&& h.HDSPE_CHAN_RAY_AES = 0 <;>
  by_cases g2 : m &&& h.HDSPE_CHAN_RAY_SPDIF = 0 <;>
  by_cases g3 : m &&& h.HDSPE_CHAN_RAY_ADAT1 = 0 <;>
  by_cases g4 : m &&& h.HDSPE_CHAN_RAY_ADAT2 = 0 <;>
  by_cases g5 : m &&& h.HDSPE_CHAN_RAY_ADAT3 = 0 <;>
  by_cases g6 : m &&& h.HDSPE_CHAN_RAY_ADAT4 = 0 <;>
  simp [g1, g2, g3, g4, g5, g6]

theorem aio_runs_disjoint :
    ∀ w ∈ [2, 4, 8], ∀ l1 p1 a1 s1 d1 l2 p2 a2 s2 d2 : Bool,
      [l1, p1, a1, s1, d1].any (fun x => x) = true →
      [l2, p2, a2, s2, d2].any (fun x => x) = true →
      is_run [l1, p1, a1, s1, d1] = true → is_run [l2, p2, a2, s2, d2] = true →
      (List.zipWith (fun x y => x && y) [l1, p1, a1, s1, d1] [l2, p2, a2, s2, d2]).any
        (fun x => x) = false →
      min (slot_base_aio l1 p1 a1 s1 d1 + slot_width_aio w l1 p1 a1 s1 d1)
          (slot_base_aio l2 p2 a2 s2 d2 + slot_width_aio w l2 p2 a2 s2 d2) ≤
        max (slot_base_aio l1 p1 a1 s1 d1) (slot_base_aio l2 p2 a2 s2 d2) := by
  decide

set_option maxRecDepth 100000 in
theorem ray_runs_disjoint :
    ∀ w ∈ [2, 4, 8], ∀ a1 s1 x1 y1 z1 t1 a2 s2 x2 y2 z2 t2 : Bool,
      [a1, s1, x1, y1, z1, t1].any (fun x => x) = true →
      [a2, s2, x2, y2, z2, t2].any (fun x => x) = true →
      is_run [a1, s1, x1, y1, z1, t1] = true → is_run [a2, s2, x2, y2, z2, t2] = true →
      (List.zipWith (fun x y => x && y) [a1, s1, x1, y1, z1, t1] [a2, s2, x2, y2, z2, t2]).any
        (fun x => x) = false →
      min (slot_base_ray w a1 s1 x1 y1 z1 t1 + slot_width_ray w a1 s1 x1 y1 z1 t1)
          (slot_base_ray w a2 s2 x2 y2 z2 t2 + slot_width_ray w a2 s2 x2 y2 z2 t2) ≤
        max (slot_base_ray w a1 s1 x1 y1 z1 t1) (slot_base_ray w a2 s2 x2 y2 z2 t2) := by
  decide

/-! ## Ring-buffer codec and port layout: theorems -/

/-- C5, evaluated where it fails: a running two-channel playback stream on
the second RayDAT ADAT port of a card at 48 kHz. The negotiated count 2 is
the count of the mask at width 2, one of the formats the channel offers; the
slot range of the channel at the width of the device rate is `[12, 20)`; yet
`buffer_copy`, which also takes the slot base at the reduced width, stores a
sample of the stream in slot 6 of the play ring. -/
theorem buffer_copy_outside_slot_range :
    dev_ray.getch 0 0 = some chan_adat2 ∧
    hdr0.AFMT_CHANNEL chan_adat2.format = hdspe_channel_count hdr0 2 chan_adat2.ports ∧
    slot_range hdr0 (hdspe_adat_width dev_ray.speed) chan_adat2.ports = Finset.Ico 12 20 ∧
    6 ∉ slot_range hdr0 (hdspe_adat_width dev_ray.speed) chan_adat2.ports ∧
    dev_ray.pbuf (6 * hdr0.HDSPE_CHANBUF_SAMPLES) = 0 ∧
    (buffer_copy hdr0 dev_ray 0 0).pbuf (6 * hdr0.HDSPE_CHANBUF_SAMPLES) = 1 := by
  refine ⟨rfl, by decide, by decide, by decide, rfl, ?_⟩
  set_option maxRecDepth 100000 in decide

/-- C6: for every start position below `HDSPE_CHANBUF_SAMPLES`, every frame
count and every number of slots (in particular every `slots <= channels`),
multiplexing `pcm` into the ring and demultiplexing the ring into `pcm2` with
the same arguments makes `pcm2` equal to `pcm` at every visited index
`p * channels + slot` (`p` one of the positions `(pos + k) mod
HDSPE_CHANBUF_SAMPLES`, `k < samples`, and `slot < slots`) and leaves every
other element of `pcm2` unchanged. -/
theorem mux_demux_roundtrip (h : hdspe_h) (dma pcm pcm2 : Nat → Nat)
    (pos samples slots channels : Nat) (hpos : pos < h.HDSPE_CHANBUF_SAMPLES) (x : Nat) :
    ((∃ k, k < samples ∧ ∃ s, s < slots ∧
        x = ((pos + k) % h.HDSPE_CHANBUF_SAMPLES) * channels + s) →
      buffer_demux_read h (buffer_mux_write h dma pcm pos samples slots channels) pcm2
        pos samples slots channels x = pcm x) ∧
    ((¬ ∃ k, k < samples ∧ ∃ s, s < slots ∧
        x = ((pos + k) % h.HDSPE_CHANBUF_SAMPLES) * channels + s) →
      buffer_demux_read h (buffer_mux_write h dma pcm pos samples slots channels) pcm2
        pos samples slots channels x = pcm2 x) := by
  have hS : 0 < h.HDSPE_CHANBUF_SAMPLES := Nat.lt_of_le_of_lt (Nat.zero_le _) hpos
  have hdma : ∀ k s, k < samples → s < slots →
      buffer_mux_write h dma pcm pos samples slots channels
          (s * h.HDSPE_CHANBUF_SAMPLES + (pos + k) % h.HDSPE_CHANBUF_SAMPLES) =
        pcm (((pos + k) % h.HDSPE_CHANBUF_SAMPLES) * channels + s) := by
    intro k s hk hs
    rw [buffer_mux_write_spec h pcm slots channels samples dma pos hpos, if_pos ⟨k, hk, s, hs, rfl⟩,
      Nat.mul_add_mod_of_lt (Nat.mod_lt _ hS), Nat.add_comm (s * _),
      Nat.add_mul_div_right _ _ hS, Nat.div_eq_of_lt (Nat.mod_lt _ hS), Nat.zero_add]
  have key := buffer_demux_read_of_mux h _ pcm slots channels samples pcm2 pos hpos hdma x
  constructor
  · intro hv
    rw [key, if_pos hv]
  · intro hv
    rw [key, if_neg hv]

/-- Witness of C6: two stereo frames starting at the last ring position, so
that the second frame wraps to position 0. -/
theorem mux_demux_roundtrip_witness :
    16383 < hdr0.HDSPE_CHANBUF_SAMPLES ∧
    buffer_demux_read hdr0
      (buffer_mux_write hdr0 (fun _ => 0) (fun k => k + 1) 16383 2 2 2) (fun _ => 0)
      16383 2 2 2 1 = 2 :=
  ⟨by decide,
    (mux_demux_roundtrip hdr0 (fun _ => 0) (fun k => k + 1) (fun _ => 0) 16383 2 2 2
      (by decide) 1).1 ⟨1, by decide, 1, by decide, by decide⟩⟩

/-- C7: when the port flags are distinct bits, for every stream width in
{2, 4, 8} the slot ranges of two different single-port masks of one catalog
(AIO: line, phone, AES, S/PDIF, ADAT; RayDAT: AES, S/PDIF, ADAT1 to ADAT4)
are disjoint, the slot bases increase strictly in catalog order, and every
range ends at or before slot `12 + w` for AIO and `4 + 4 * w` for RayDAT,
both at most 36. -/
theorem single_port_layout (h : hdspe_h) (hd : ports_distinct h) (w : Nat)
    (hw : w = 2 ∨ w = 4 ∨ w = 8) :
    (aio_ports h).Pairwise (fun p q =>
      Disjoint (slot_range h w p) (slot_range h w q) ∧
      hdspe_channel_slot_base h w p < hdspe_channel_slot_base h w q) ∧
    (ray_ports h).Pairwise (fun p q =>
      Disjoint (slot_range h w p) (slot_range h w q) ∧
      hdspe_channel_slot_base h w p < hdspe_channel_slot_base h w q) ∧
    (∀ p ∈ aio_ports h,
      hdspe_channel_slot_base h w p + hdspe_channel_slot_width h w p ≤ 12 + w) ∧
    (∀ p ∈ ray_ports h,
      hdspe_channel_slot_base h w p + hdspe_channel_slot_width h w p ≤ 4 + 4 * w) ∧
    12 + w ≤ 36 ∧ 4 + 4 * w ≤ 36 := by
  obtain ⟨ha, hr⟩ := single_port_values h hd w hw
  simp only [aio_ports, ray_ports, List.map_cons, List.map_nil, List.cons.injEq, Prod.mk.injEq,
    and_true] at ha hr
  obtain ⟨⟨a1, a2⟩, ⟨a3, a4⟩, ⟨a5, a6⟩, ⟨a7, a8⟩, a9, a10⟩ := ha
  obtain ⟨⟨r1, r2⟩, ⟨r3, r4⟩, ⟨r5, r6⟩, ⟨r7, r8⟩, ⟨r9, r10⟩, r11, r12⟩ := hr
  simp only [aio_ports, ray_ports, slot_range, List.pairwise_cons, List.mem_cons,
    List.mem_singleton, List.not_mem_nil, forall_eq_or_imp, forall_eq, ico_disjoint_iff,
    a1, a2, a3, a4, a5, a6, a7, a8, a9, a10, r1, r2, r3, r4, r5, r6, r7, r8, r9, r10, r11, r12,
    List.Pairwise.nil, IsEmpty.forall_iff, implies_true, and_true, or_false]
  rcases hw with rfl | rfl | rfl <;> simp

/-- Witness of C7 for the header values `hdr0` at width 8. -/
theorem single_port_layout_witness :
    ports_distinct hdr0 ∧ (8 = 2 ∨ 8 = 4 ∨ 8 = 8) ∧
    (∀ p ∈ ray_ports hdr0,
      hdspe_channel_slot_base hdr0 8 p + hdspe_channel_slot_width hdr0 8 p ≤ 4 + 4 * 8) :=
  ⟨by decide, by decide, (single_port_layout hdr0 (by decide) 8 (by decide)).2.2.2.1⟩

/-- Counterexample to C8 as stated: at width 2 the AIO masks phone + S/PDIF
and AES are non-empty and share no port flag, but their slot ranges
`[6, 10)` and `[8, 10)` both contain slot 8. -/
theorem slot_ranges_overlap_counterexample :
    has_port (aio_ports hdr0) (2 ||| 8) = true ∧ has_port (aio_ports hdr0) 4 = true ∧
    has_port (ray_ports hdr0) (2 ||| 8) = false ∧ has_port (ray_ports hdr0) 4 = false ∧
    (2 ||| 8) &&& 4 = 0 ∧ share_port (aio_ports hdr0) (2 ||| 8) 4 = false ∧
    slot_range hdr0 2 (2 ||| 8) = Finset.Ico 6 10 ∧
    slot_range hdr0 2 4 = Finset.Ico 8 10 ∧
    ¬ Disjoint (slot_range hdr0 2 (2 ||| 8)) (slot_range hdr0 2 4) := by
  refine ⟨by decide, by decide, by decide, by decide, by decide, by decide, by decide,
    by decide, ?_⟩
  rw [Finset.not_disjoint_iff]
  exact ⟨8, by decide, by decide⟩

/-- C8, amended: for every stream width in {2, 4, 8} and every two port
masks that each have at least one port of the same catalog (both an AIO
port, or both no AIO port and a RayDAT port), share no port of that catalog
and each consist of ports adjacent in catalog order, the slot ranges of the
two masks are disjoint. -/
theorem slot_ranges_disjoint_of_runs (h : hdspe_h) (w m1 m2 : Nat)
    (hw : w = 2 ∨ w = 4 ∨ w = 8)
    (hcat :
      (has_port (aio_ports h) m1 = true ∧ has_port (aio_ports h) m2 = true ∧
        run_of_ports (aio_ports h) m1 = true ∧ run_of_ports (aio_ports h) m2 = true ∧
        share_port (aio_ports h) m1 m2 = false) ∨
      (has_port (aio_ports h) m1 = false ∧ has_port (aio_ports h) m2 = false ∧
        has_port (ray_ports h) m1 = true ∧ has_port (ray_ports h) m2 = true ∧
        run_of_ports (ray_ports h) m1 = true ∧ run_of_ports (ray_ports h) m2 = true ∧
        share_port (ray_ports h) m1 m2 = false)) :
    Disjoint (slot_range h w m1) (slot_range h w m2) := by
  have hwm : w ∈ [2, 4, 8] := by
    rcases hw with rfl | rfl | rfl <;> simp
  have hw0 : 0 < w := by
    rcases hw with rfl | rfl | rfl <;> decide
  rw [slot_range, slot_range, ico_disjoint_iff]
  rcases hcat with ⟨h1, h2, h3, h4, h5⟩ | ⟨g1, g2, h1, h2, h3, h4, h5⟩
  · rw [(slot_aio_eq h w m1 hw0 h1).1, (slot_aio_eq h w m1 hw0 h1).2,
      (slot_aio_eq h w m2 hw0 h2).1, (slot_aio_eq h w m2 hw0 h2).2]
    exact aio_runs_disjoint w hwm _ _ _ _ _ _ _ _ _ _ h1 h2 h3 h4 h5
  · rw [(slot_ray_eq h w m1 g1).1, (slot_ray_eq h w m1 g1).2,
      (slot_ray_eq h w m2 g2).1, (slot_ray_eq h w m2 g2).2]
    exact ray_runs_disjoint w hwm _ _ _ _ _ _ _ _ _ _ _ _ h1 h2 h3 h4 h5

/-- Witness of the amended C8: the AIO masks phone + AES and S/PDIF + ADAT
at width 8. -/
theorem slot_ranges_disjoint_of_runs_witness :
    (8 = 2 ∨ 8 = 4 ∨ 8 = 8) ∧
    (has_port (aio_ports hdr0) (2 ||| 4) = true ∧ has_port (aio_ports hdr0) (8 ||| 16) = true ∧
      run_of_ports (aio_ports hdr0) (2 ||| 4) = true ∧
      run_of_ports (aio_ports hdr0) (8 ||| 16) = true ∧
      share_port (aio_ports hdr0) (2 ||| 4) (8 ||| 16) = false) ∧
    Disjoint (slot_range hdr0 8 (2 ||| 4)) (slot_range hdr0 8 (8 ||| 16)) :=
  ⟨by decide, by decide,
    slot_ranges_disjoint_of_runs hdr0 8 (2 ||| 4) (8 ||| 16) (by decide)
      (Or.inl (by decide))⟩

/-- The width selected by the two tests of `buffer_copy`, for a negotiated
channel count `n` that is the count of the mask at some width in {2, 4, 8}
not above the device width. -/
theorem buffer_copy_adat_width_selected (h : hdspe_h) (ports speed n w' : Nat)
    (hw' : w' = 2 ∨ w' = 4 ∨ w' = 8) (hle : w' ≤ hdspe_adat_width speed)
    (hn : n = hdspe_channel_count h w' ports) :
    (hdspe_adat_width speed = 2 ∨ hdspe_adat_width speed = 4 ∨ hdspe_adat_width speed = 8) ∧
    (buffer_copy_adat_width h speed n ports = 2 ∨ buffer_copy_adat_width h speed n ports = 4 ∨
      buffer_copy_adat_width h speed n ports = 8) ∧
    buffer_copy_adat_width h speed n ports ≤ hdspe_adat_width speed ∧
    hdspe_channel_count h (buffer_copy_adat_width h speed n ports) ports = n ∧
    (∀ v, (v = 2 ∨ v = 4 ∨ v = 8) → v < buffer_copy_adat_width h speed n ports →
      hdspe_channel_count h v ports ≠ n) ∧
    (n = hdspe_channel_count h 2 ports → buffer_copy_adat_width h speed n ports = 2) := by
  have hdev : hdspe_adat_width speed = 2 ∨ hdspe_adat_width speed = 4 ∨
      hdspe_adat_width speed = 8 := by
    unfold hdspe_adat_width; split_ifs <;> simp
  refine ⟨hdev, ?_⟩
  unfold buffer_copy_adat_width
  generalize hdspe_adat_width speed = wd at hdev hle
  rcases hdev with rfl | rfl | rfl <;> rcases hw' with rfl | rfl | rfl <;>
    simp only [] at hle ⊢ <;> 
    first
    | omega
    | (subst hn
       split_ifs <;> simp_all <;> omega)

theorem ptr_add_zero (buf : Nat → Nat) : ptr_add buf 0 = buf := by
  funext k
  simp [ptr_add]

theorem ptr_store_zero (buf view : Nat → Nat) : ptr_store buf 0 view = view := by
  funext k
  simp [ptr_store]

/-- C9: for every channel (every port mask), every device rate (hence every
device stream width in {2, 4, 8}) and every negotiated channel count `n` that
is the count of the mask at some width `w'` in {2, 4, 8} not above the device
width, the width `w` selected by `buffer_copy` is in {2, 4, 8}, is not above
the device width, gives the channel count `n` for the mask, and no narrower
width in {2, 4, 8} gives `n`; when `n` is the count of the mask at width 2
the selected width is 2. `buffer_copy` passes `w` to `buffer_mux_port`
(playback) or `buffer_demux_port` (capture), so that the copy moves
`hdspe_channel_slot_width(w, ports)` slots per frame with an interleave
stride of exactly `n`. -/
theorem copy_width_reduction (h : hdspe_h) (sc : sc_info) (i j w' : Nat) (ch : sc_chinfo)
    (hch : sc.getch i j = some ch)
    (hw' : w' = 2 ∨ w' = 4 ∨ w' = 8) (hle : w' ≤ hdspe_adat_width sc.speed)
    (hn : h.AFMT_CHANNEL ch.format = hdspe_channel_count h w' ch.ports) :
    (hdspe_adat_width sc.speed = 2 ∨ hdspe_adat_width sc.speed = 4 ∨
      hdspe_adat_width sc.speed = 8) ∧
    (buffer_copy_adat_width h sc.speed (h.AFMT_CHANNEL ch.format) ch.ports = 2 ∨
      buffer_copy_adat_width h sc.speed (h.AFMT_CHANNEL ch.format) ch.ports = 4 ∨
      buffer_copy_adat_width h sc.speed (h.AFMT_CHANNEL ch.format) ch.ports = 8) ∧
    buffer_copy_adat_width h sc.speed (h.AFMT_CHANNEL ch.format) ch.ports ≤
      hdspe_adat_width sc.speed ∧
    hdspe_channel_count h
        (buffer_copy_adat_width h sc.speed (h.AFMT_CHANNEL ch.format) ch.ports) ch.ports =
      h.AFMT_CHANNEL ch.format ∧
    (∀ v, (v = 2 ∨ v = 4 ∨ v = 8) →
      v < buffer_copy_adat_width h sc.speed (h.AFMT_CHANNEL ch.format) ch.ports →
      hdspe_channel_count h v ch.ports ≠ h.AFMT_CHANNEL ch.format) ∧
    (h.AFMT_CHANNEL ch.format = hdspe_channel_count h 2 ch.ports →
      buffer_copy_adat_width h sc.speed (h.AFMT_CHANNEL ch.format) ch.ports = 2) ∧
    (ch.dir = PCMDIR.PCMDIR_PLAY →
      buffer_copy h sc i j =
        { sc with pbuf := (buffer_mux_port h sc.pbuf ch.data ch.ports ch.ports
            (ch.buffer.readyptr / 4 / h.AFMT_CHANNEL ch.format) (sc.period * 2)
            (buffer_copy_adat_width h sc.speed (h.AFMT_CHANNEL ch.format) ch.ports)) } ∧
      (buffer_copy h sc i j).pbuf =
        ptr_store sc.pbuf
          (hdspe_channel_slot_base h
              (buffer_copy_adat_width h sc.speed (h.AFMT_CHANNEL ch.format) ch.ports)
              ch.ports * h.HDSPE_CHANBUF_SAMPLES)
          (buffer_mux_write h
            (ptr_add sc.pbuf
              (hdspe_channel_slot_base h
                  (buffer_copy_adat_width h sc.speed (h.AFMT_CHANNEL ch.format) ch.ports)
                  ch.ports * h.HDSPE_CHANBUF_SAMPLES))
            ch.data (ch.buffer.readyptr / 4 / h.AFMT_CHANNEL ch.format) (sc.period * 2)
            (hdspe_channel_slot_width h
              (buffer_copy_adat_width h sc.speed (h.AFMT_CHANNEL ch.format) ch.ports)
              ch.ports)
            (h.AFMT_CHANNEL ch.format))) ∧
    (ch.dir = PCMDIR.PCMDIR_REC →
      buffer_copy h sc i j =
        sc.setch i j { ch with data := (buffer_demux_port h sc.rbuf ch.data ch.ports ch.ports
            (ch.buffer.freeptr / 4 / h.AFMT_CHANNEL ch.format) (sc.period * 2)
            (buffer_copy_adat_width h sc.speed (h.AFMT_CHANNEL ch.format) ch.ports)) } ∧
      buffer_demux_port h sc.rbuf ch.data ch.ports ch.ports
          (ch.buffer.freeptr / 4 / h.AFMT_CHANNEL ch.format) (sc.period * 2)
          (buffer_copy_adat_width h sc.speed (h.AFMT_CHANNEL ch.format) ch.ports) =
        buffer_demux_read h
          (ptr_add sc.rbuf
            (hdspe_channel_slot_base h
                (buffer_copy_adat_width h sc.speed (h.AFMT_CHANNEL ch.format) ch.ports)
                ch.ports * h.HDSPE_CHANBUF_SAMPLES))
          ch.data (ch.buffer.freeptr / 4 / h.AFMT_CHANNEL ch.format) (sc.period * 2)
          (hdspe_channel_slot_width h
            (buffer_copy_adat_width h sc.speed (h.AFMT_CHANNEL ch.format) ch.ports)
            ch.ports)
          (h.AFMT_CHANNEL ch.format)) := by
  obtain ⟨k1, k2, k3, k4, k5, k6⟩ :=
    buffer_copy_adat_width_selected h ch.ports sc.speed (h.AFMT_CHANNEL ch.format) w' hw' hle hn
  refine ⟨k1, k2, k3, k4, k5, k6, ?_, ?_⟩
  · intro hdir
    have hcopy : buffer_copy h sc i j =
        { sc with pbuf := (buffer_mux_port h sc.pbuf ch.data ch.ports ch.ports
            (ch.buffer.readyptr / 4 / h.AFMT_CHANNEL ch.format) (sc.period * 2)
            (buffer_copy_adat_width h sc.speed (h.AFMT_CHANNEL ch.format) ch.ports)) } := by
      unfold buffer_copy
      simp only [hch, hdir, if_true]
    refine ⟨hcopy, ?_⟩
    rw [hcopy]
    show buffer_mux_port h sc.pbuf ch.data ch.ports ch.ports _ _ _ = _
    unfold buffer_mux_port
    simp only [k4, ptr_add_zero]
  · intro hdir
    have hne : ¬ ch.dir = PCMDIR.PCMDIR_PLAY := by
      rw [hdir]; decide
    constructor
    · unfold buffer_copy
      simp only [hch, hne, if_false]
    · unfold buffer_demux_port
      simp only [k4, ptr_add_zero, ptr_store_zero]

/-- Witness of C9: two negotiated channels on the second RayDAT ADAT port at
48 kHz, where the device width is 8: the selected width is 2, its channel
count is the negotiated 2, and the playback copy is `buffer_mux_port` at that
width. -/
theorem copy_width_reduction_witness :
    dev_ray.getch 0 0 = some chan_adat2 ∧ (2 = 2 ∨ 2 = 4 ∨ 2 = 8) ∧
    2 ≤ hdspe_adat_width dev_ray.speed ∧
    hdr0.AFMT_CHANNEL chan_adat2.format = hdspe_channel_count hdr0 2 chan_adat2.ports ∧
    hdspe_adat_width dev_ray.speed = 8 ∧
    hdspe_channel_count hdr0
        (buffer_copy_adat_width hdr0 dev_ray.speed (hdr0.AFMT_CHANNEL chan_adat2.format)
          chan_adat2.ports) chan_adat2.ports =
      hdr0.AFMT_CHANNEL chan_adat2.format ∧
    buffer_copy_adat_width hdr0 dev_ray.speed (hdr0.AFMT_CHANNEL chan_adat2.format)
      chan_adat2.ports = 2 ∧
    buffer_copy hdr0 dev_ray 0 0 =
      { dev_ray with pbuf := (buffer_mux_port hdr0 dev_ray.pbuf chan_adat2.data
          chan_adat2.ports chan_adat2.ports
          (chan_adat2.buffer.readyptr / 4 / hdr0.AFMT_CHANNEL chan_adat2.format)
          (dev_ray.period * 2)
          (buffer_copy_adat_width hdr0 dev_ray.speed (hdr0.AFMT_CHANNEL chan_adat2.format)
            chan_adat2.ports)) } :=
  have t := copy_width_reduction hdr0 dev_ray 0 0 2 chan_adat2 rfl (by decide) (by decide)
    (by decide)
  ⟨rfl, by decide, by decide, by decide, by decide, t.2.2.2.1, t.2.2.2.2.2.1 (by decide),
    (t.2.2.2.2.2.2.1 rfl).1⟩

/-! ## Latency resolver: lemmas and theorems -/

theorem setblocksize_equal_loop (b : Nat) :
    hdspechan_setblocksize_equal b latency_map none =
      if b ∈ periods then latency_map.get? (period_index b) else none := by
  unfold periods
  by_cases hm : b ∈ [32, 64, 128, 256, 512, 1024, 2048, 4096]
  · rw [if_pos hm]
    simp only [List.mem_cons, List.mem_singleton, List.not_mem_nil, or_false] at hm
    rcases hm with h1 | h1 | h1 | h1 | h1 | h1 | h1 | h1 <;> subst h1 <;>
      simp [latency_map, hdspechan_setblocksize_equal, period_index]
  · rw [if_neg hm]
    simp only [List.mem_cons, List.mem_singleton, List.not_mem_nil, or_false, not_or] at hm
    obtain ⟨h1, h2, h3, h4, h5, h6, h7, h8⟩ := hm
    simp [latency_map, hdspechan_setblocksize_equal, Ne.symm h1, Ne.symm h2, Ne.symm h3,
      Ne.symm h4, Ne.symm h5, Ne.symm h6, Ne.symm h7, Ne.symm h8]

theorem setblocksize_nearest_loop (b : Nat) :
    hdspechan_setblocksize_nearest b latency_map none = latency_map.get? (period_index b) := by
  simp only [latency_map, hdspechan_setblocksize_nearest, List.headD_cons,
    Nat.shiftRight_eq_div_pow]
  norm_num
  unfold period_index
  split_ifs <;> simp

theorem latency_map_index (b : Nat) :
    ∃ e, latency_map.get? (period_index b) = some e ∧ e.period = period_by_threshold b := by
  unfold period_index period_by_threshold
  split_ifs <;> simp [latency_map]

theorem setblocksize_hl_eq (b : Nat) :
    (match hdspechan_setblocksize_equal b latency_map none with
      | some e => some e
      | none => hdspechan_setblocksize_nearest b latency_map none) =
      latency_map.get? (period_index b) := by
  rw [setblocksize_equal_loop, setblocksize_nearest_loop]
  obtain ⟨e, he, -⟩ := latency_map_index b
  rw [he]
  split_ifs <;> rfl

theorem period_by_threshold_mem (b : Nat) : period_by_threshold b ∈ periods := by
  unfold period_by_threshold periods
  split_ifs <;> simp

theorem period_by_threshold_nearest (b e : Nat) (he : e ∈ periods) :
    |(period_by_threshold b : ℤ) - (b : ℤ)| ≤ |(e : ℤ) - (b : ℤ)| := by
  simp only [periods, List.mem_cons, List.mem_singleton, List.not_mem_nil, or_false] at he
  simp only [← Int.natCast_natAbs, Int.ofNat_le]
  unfold period_by_threshold
  split_ifs <;> push_cast <;> omega

theorem getch_setch (sc : sc_info) (i j : Nat) (ch c : sc_chinfo)
    (hch : sc.getch i j = some ch) : (sc.setch i j c).getch i j = some c := by
  unfold sc_info.getch at hch ⊢
  unfold sc_info.setch
  simp only [List.get?_eq_getElem?] at hch ⊢
  cases hs : sc.children[i]? with
  | none => rw [hs] at hch; simp at hch
  | some scp =>
    rw [hs] at hch
    simp only at hch ⊢
    have hi : i < sc.children.length := (List.getElem?_eq_some.1 hs).1
    have hj : j < scp.chan.length := (List.getElem?_eq_some.1 hch).1
    simp [List.getElem?_set, hi, hj]

theorem setch_fields (sc : sc_info) (i j : Nat) (c : sc_chinfo) :
    (sc.setch i j c).type = sc.type ∧ (sc.setch i j c).speed = sc.speed ∧
    (sc.setch i j c).period = sc.period ∧
    (sc.setch i j c).ctrl_register = sc.ctrl_register ∧
    (sc.setch i j c).pbuf = sc.pbuf ∧ (sc.setch i j c).rbuf = sc.rbuf ∧
    (sc.setch i j c).children_err = sc.children_err ∧ (sc.setch i j c).regs = sc.regs := by
  unfold sc_info.setch
  split <;> simp

/-- What `hdspechan_setblocksize` does on an idle device: the period, the
control word, the register log and the returned block size. -/
theorem setblocksize_idle (h : hdspe_h) (sc : sc_info) (i j blocksize : Nat) (ch : sc_chinfo)
    (hch : sc.getch i j = some ch) (hidle : hdspe_running sc = 0) :
    ∃ l, latency_map.get? (period_index (clamp_blocksize h blocksize / 4)) = some l ∧
      l.period = period_by_threshold (clamp_blocksize h blocksize / 4) ∧
      (hdspechan_setblocksize h sc i j blocksize).1.period = l.period ∧
      (hdspechan_setblocksize h sc i j blocksize).1.type = sc.type ∧
      (hdspechan_setblocksize h sc i j blocksize).1.ctrl_register =
        (sc.ctrl_register &&& not32 h.HDSPE_LAT_MASK) ||| h.hdspe_encode_latency l.n ∧
      (hdspechan_setblocksize h sc i j blocksize).1.regs =
        sc.regs ++ [⟨4, h.HDSPE_CONTROL_REG,
          ((sc.ctrl_register &&& not32 h.HDSPE_LAT_MASK) ||| h.hdspe_encode_latency l.n)
            % 2 ^ 32⟩] ∧
      (hdspechan_setblocksize h sc i j blocksize).1.getch i j =
        some { ch with buffer := (h.sndbuf_resize ch.buffer
          ((h.HDSPE_CHANBUF_SIZE * h.AFMT_CHANNEL ch.format) / (l.period * 4))
          (l.period * 4)) } ∧
      (hdspechan_setblocksize h sc i j blocksize).2 =
        (h.sndbuf_resize ch.buffer
          ((h.HDSPE_CHANBUF_SIZE * h.AFMT_CHANNEL ch.format) / (l.period * 4))
          (l.period * 4)).blksz := by
  obtain ⟨l, hl, hp⟩ := latency_map_index (clamp_blocksize h blocksize / 4)
  refine ⟨l, hl, hp, ?_⟩
  have hsel := setblocksize_hl_eq (clamp_blocksize h blocksize / 4)
  rw [hl] at hsel
  unfold clamp_blocksize at hsel
  unfold hdspechan_setblocksize
  simp only [hch, hidle, hsel, zero_ne_one, if_false]
  refine ⟨?_, ?_, ?_, ?_, ?_⟩
  · rw [(setch_fields _ i j _).2.2.1]
  · rw [(setch_fields _ i j _).1]; rfl
  · rw [(setch_fields _ i j _).2.2.2.1]; rfl
  · rw [(setch_fields _ i j _).2.2.2.2.2.2.2]; rfl
  · rw [and_true]
    apply getch_setch _ i j ch
    exact hch

/-- Counterexample to C11 as stated: on the idle card whose type is neither
RayDAT nor AIO, a request of 1024 bytes changes the period from 64 to 256,
changes the control word and writes it to the control register. -/
theorem setblocksize_unsupported_counterexample :
    hdspe_running dev_other = 0 ∧ dev_other.type ≠ hdr0.HDSPE_RAYDAT ∧
    dev_other.type ≠ hdspe_h.HDSPE_AIO hdr0 ∧
    dev_other.period = 64 ∧ dev_other.ctrl_register = 0 ∧ dev_other.regs = [] ∧
    (hdspechan_setblocksize hdr0 dev_other 0 0 1024).1.period = 256 ∧
    (hdspechan_setblocksize hdr0 dev_other 0 0 1024).1.ctrl_register = 4 ∧
    (hdspechan_setblocksize hdr0 dev_other 0 0 1024).1.regs = [⟨4, 64, 4⟩] := by
  decide

/-- C11, amended: `hdspechan_setblocksize` does not consult the device
type. For every requested block size, on an idle device of any type (also
one that is neither `HDSPE_RAYDAT` nor `HDSPE_AIO`) it leaves the type
unchanged, sets `sc->period` to the period of the table entry selected for
the clamped request, replaces the latency bits of `sc->ctrl_register` by the
code of that entry, performs exactly one register write, of the new control
word to the control register, and resizes the channel buffer with
`sndbuf_resize` to `HDSPE_CHANBUF_SIZE * channels / (period * 4)` blocks of
`period * 4` bytes. -/
theorem setblocksize_any_type (h : hdspe_h) (sc : sc_info) (i j blocksize : Nat)
    (ch : sc_chinfo) (hch : sc.getch i j = some ch) (hidle : hdspe_running sc = 0) :
    (hdspechan_setblocksize h sc i j blocksize).1.type = sc.type ∧
    (hdspechan_setblocksize h sc i j blocksize).1.period =
      period_by_threshold (clamp_blocksize h blocksize / 4) ∧
    (hdspechan_setblocksize h sc i j blocksize).1.period ∈ periods ∧
    (hdspechan_setblocksize h sc i j blocksize).1.regs =
      sc.regs ++ [⟨4, h.HDSPE_CONTROL_REG,
        (hdspechan_setblocksize h sc i j blocksize).1.ctrl_register % 2 ^ 32⟩] ∧
    (∃ l ∈ latency_map,
      l.period = (hdspechan_setblocksize h sc i j blocksize).1.period ∧
      (hdspechan_setblocksize h sc i j blocksize).1.ctrl_register =
        (sc.ctrl_register &&& not32 h.HDSPE_LAT_MASK) ||| h.hdspe_encode_latency l.n ∧
      (hdspechan_setblocksize h sc i j blocksize).1.regs =
        sc.regs ++ [⟨4, h.HDSPE_CONTROL_REG,
          ((sc.ctrl_register &&& not32 h.HDSPE_LAT_MASK) ||| h.hdspe_encode_latency l.n)
            % 2 ^ 32⟩] ∧
      (hdspechan_setblocksize h sc i j blocksize).1.getch i j =
        some { ch with buffer := (h.sndbuf_resize ch.buffer
          ((h.HDSPE_CHANBUF_SIZE * h.AFMT_CHANNEL ch.format) / (l.period * 4))
          (l.period * 4)) }) := by
  obtain ⟨l, hl, hp, h1, h2, h3, h4, h5, -⟩ := setblocksize_idle h sc i j blocksize ch hch hidle
  refine ⟨h2, ?_, ?_, ?_, ⟨l, List.get?_mem hl, h1.symm, h3, h4, h5⟩⟩
  · rw [h1, hp]
  · rw [h1, hp]; exact period_by_threshold_mem _
  · rw [h4, h3]

/-- Witness of the amended C11 on the idle card of another type. -/
theorem setblocksize_any_type_witness :
    dev_other.getch 0 0 = some chan_line ∧ hdspe_running dev_other = 0 ∧
    (hdspechan_setblocksize hdr0 dev_other 0 0 1024).1.period ∈ periods ∧
    (∃ l ∈ latency_map,
      l.period = (hdspechan_setblocksize hdr0 dev_other 0 0 1024).1.period ∧
      (hdspechan_setblocksize hdr0 dev_other 0 0 1024).1.ctrl_register =
        (dev_other.ctrl_register &&& not32 hdr0.HDSPE_LAT_MASK) |||
          hdr0.hdspe_encode_latency l.n ∧
      (hdspechan_setblocksize hdr0 dev_other 0 0 1024).1.regs =
        dev_other.regs ++ [⟨4, hdr0.HDSPE_CONTROL_REG,
          ((dev_other.ctrl_register &&& not32 hdr0.HDSPE_LAT_MASK) |||
            hdr0.hdspe_encode_latency l.n) % 2 ^ 32⟩] ∧
      (hdspechan_setblocksize hdr0 dev_other 0 0 1024).1.getch 0 0 =
        some { chan_line with buffer := (hdr0.sndbuf_resize chan_line.buffer
          ((hdr0.HDSPE_CHANBUF_SIZE * hdr0.AFMT_CHANNEL chan_line.format) / (l.period * 4))
          (l.period * 4)) }) :=
  ⟨rfl, by decide,
    (setblocksize_any_type hdr0 dev_other 0 0 1024 chan_line rfl (by decide)).2.2.1,
    (setblocksize_any_type hdr0 dev_other 0 0 1024 chan_line rfl (by decide)).2.2.2.2⟩

/-- C12: for every requested block size in bytes, on an idle device
`hdspechan_setblocksize` sets `sc->period` to an entry of the period table
{32, ..., 4096} whose distance to the clamped request divided by 4 is minimal
over the table, and, the framework resize storing the block size it is given,
returns `period * 4` bytes. With the latency range of 128 to 16384 bytes a
request of 256 bytes (64 samples) gives 64, a request of 0 gives 32 and a
request of 100000 gives 4096. -/
theorem setblocksize_nearest_period (h : hdspe_h) (sc : sc_info) (i j blocksize : Nat)
    (ch : sc_chinfo) (hch : sc.getch i j = some ch) (hidle : hdspe_running sc = 0)
    (hres : ∀ b cnt sz, (h.sndbuf_resize b cnt sz).blksz = sz) :
    latency_map.map hdspe_latency.period = periods ++ [0] ∧
    (hdspechan_setblocksize h sc i j blocksize).1.period ∈ periods ∧
    (∀ e ∈ periods,
      |((hdspechan_setblocksize h sc i j blocksize).1.period : ℤ) -
          ((clamp_blocksize h blocksize / 4 : ℕ) : ℤ)| ≤
        |(e : ℤ) - ((clamp_blocksize h blocksize / 4 : ℕ) : ℤ)|) ∧
    (hdspechan_setblocksize h sc i j blocksize).2 =
      (hdspechan_setblocksize h sc i j blocksize).1.period * 4 ∧
    (h.HDSPE_LAT_BYTES_MIN = 128 → h.HDSPE_LAT_BYTES_MAX = 16384 →
      (hdspechan_setblocksize h sc i j 256).1.period = 64 ∧
      (hdspechan_setblocksize h sc i j 0).1.period = 32 ∧
      (hdspechan_setblocksize h sc i j 100000).1.period = 4096) := by
  have key : ∀ b, (hdspechan_setblocksize h sc i j b).1.period =
      period_by_threshold (clamp_blocksize h b / 4) := by
    intro b
    obtain ⟨l, -, hp, h1, -⟩ := setblocksize_idle h sc i j b ch hch hidle
    rw [h1, hp]
  refine ⟨rfl, ?_, ?_, ?_, ?_⟩
  · rw [key]; exact period_by_threshold_mem _
  · intro e he
    rw [key]; exact period_by_threshold_nearest _ e he
  · obtain ⟨l, -, -, h1, -, -, -, -, h6⟩ := setblocksize_idle h sc i j blocksize ch hch hidle
    rw [h6, h1, hres]
  · intro hmin hmax
    rw [key, key, key]
    simp only [clamp_blocksize, hmin, hmax]
    decide

/-- Witness of C12 on the idle AIO card, for a request of 1000 bytes. -/
theorem setblocksize_nearest_period_witness :
    dev_idle.getch 0 0 = some chan_line ∧ hdspe_running dev_idle = 0 ∧
    (∀ b cnt sz, (hdr0.sndbuf_resize b cnt sz).blksz = sz) ∧
    (hdspechan_setblocksize hdr0 dev_idle 0 0 1000).1.period ∈ periods ∧
    (hdspechan_setblocksize hdr0 dev_idle 0 0 1000).2 =
      (hdspechan_setblocksize hdr0 dev_idle 0 0 1000).1.period * 4 :=
  ⟨rfl, by decide, fun _ _ _ => rfl,
    (setblocksize_nearest_period hdr0 dev_idle 0 0 1000 chan_line rfl (by decide)
      (fun _ _ _ => rfl)).2.1,
    (setblocksize_nearest_period hdr0 dev_idle 0 0 1000 chan_line rfl (by decide)
      (fun _ _ _ => rfl)).2.2.2.1⟩

/-- C17: for a channel whose run flag is 0, a `PCMTRIG_EMLDMAWR` or
`PCMTRIG_EMLDMARD` trigger returns the device state unchanged: both rings,
the private buffer of the channel and all device and channel state. -/
theorem trigger_copy_gated (h : hdspe_h) (sc : sc_info) (i j : Nat) (ch : sc_chinfo)
    (hch : sc.getch i j = some ch) (hrun : ch.run = 0) :
    hdspechan_trigger h sc i j PCMTRIG.PCMTRIG_EMLDMAWR = sc ∧
    hdspechan_trigger h sc i j PCMTRIG.PCMTRIG_EMLDMARD = sc := by
  simp [hdspechan_trigger, hch, hrun]

/-- Witness of C17 on the stopped channel of the idle AIO card. -/
theorem trigger_copy_gated_witness :
    dev_idle.getch 0 0 = some chan_line ∧ chan_line.run = 0 ∧
    hdspechan_trigger hdr0 dev_idle 0 0 PCMTRIG.PCMTRIG_EMLDMAWR = dev_idle :=
  ⟨rfl, rfl, (trigger_copy_gated hdr0 dev_idle 0 0 chan_line rfl rfl).1⟩

/-- C19: for every start position below `HDSPE_CHANBUF_SAMPLES` and every
frame count (in particular every count up to `HDSPE_CHANBUF_SAMPLES`), after
`buffer_mux_write` the ring holds `pcm[p * channels + slot]` at
`dma[slot * HDSPE_CHANBUF_SAMPLES + p]` for every visited position
`p = (pos + k) mod HDSPE_CHANBUF_SAMPLES`, `k < samples`, and every
`slot < slots`; every other element is unchanged, and so is every element at
or beyond `slots * HDSPE_CHANBUF_SAMPLES`. -/
theorem mux_write_shape (h : hdspe_h) (dma pcm : Nat → Nat)
    (pos samples slots channels : Nat) (hpos : pos < h.HDSPE_CHANBUF_SAMPLES) :
    (∀ k slot, k < samples → slot < slots →
      buffer_mux_write h dma pcm pos samples slots channels
          (slot * h.HDSPE_CHANBUF_SAMPLES + (pos + k) % h.HDSPE_CHANBUF_SAMPLES) =
        pcm (((pos + k) % h.HDSPE_CHANBUF_SAMPLES) * channels + slot)) ∧
    (∀ x, (¬ ∃ k, k < samples ∧ ∃ slot, slot < slots ∧
        x = slot * h.HDSPE_CHANBUF_SAMPLES + (pos + k) % h.HDSPE_CHANBUF_SAMPLES) →
      buffer_mux_write h dma pcm pos samples slots channels x = dma x) ∧
    (∀ x, slots * h.HDSPE_CHANBUF_SAMPLES ≤ x →
      buffer_mux_write h dma pcm pos samples slots channels x = dma x) := by
  have hS : 0 < h.HDSPE_CHANBUF_SAMPLES := Nat.lt_of_le_of_lt (Nat.zero_le _) hpos
  have hspec := buffer_mux_write_spec h pcm slots channels samples dma pos hpos
  have hother : ∀ x, (¬ ∃ k, k < samples ∧ ∃ slot, slot < slots ∧
      x = slot * h.HDSPE_CHANBUF_SAMPLES + (pos + k) % h.HDSPE_CHANBUF_SAMPLES) →
      buffer_mux_write h dma pcm pos samples slots channels x = dma x := by
    intro x hx
    rw [hspec, if_neg hx]
  refine ⟨?_, hother, ?_⟩
  · intro k slot hk hs
    rw [hspec, if_pos ⟨k, hk, slot, hs, rfl⟩,
      Nat.mul_add_mod_of_lt (Nat.mod_lt _ hS), Nat.add_comm (slot * _),
      Nat.add_mul_div_right _ _ hS, Nat.div_eq_of_lt (Nat.mod_lt _ hS), Nat.zero_add]
  · intro x hx
    apply hother
    rintro ⟨k, -, slot, hs, rfl⟩
    have h1 : (pos + k) % h.HDSPE_CHANBUF_SAMPLES < h.HDSPE_CHANBUF_SAMPLES := Nat.mod_lt _ hS
    have h2 : (slot + 1) * h.HDSPE_CHANBUF_SAMPLES ≤ slots * h.HDSPE_CHANBUF_SAMPLES :=
      Nat.mul_le_mul_right _ hs
    rw [Nat.add_mul, Nat.one_mul] at h2
    omega

/-- Witness of C19: two stereo frames starting at the last ring position;
the second frame is stored at position 0 of slot 1. -/
theorem mux_write_shape_witness :
    16383 < hdr0.HDSPE_CHANBUF_SAMPLES ∧
    buffer_mux_write hdr0 (fun _ => 0) (fun k => k + 1) 16383 2 2 2
      (1 * hdr0.HDSPE_CHANBUF_SAMPLES + (16383 + 1) % hdr0.HDSPE_CHANBUF_SAMPLES) = 2 :=
  ⟨by decide,
    (mux_write_shape hdr0 (fun _ => 0) (fun k => k + 1) 16383 2 2 2 (by decide)).1 1 1
      (by decide) (by decide)⟩

/-! ## Channel count and slot width: theorems -/

theorem ports_distinct_facts (h : hdspe_h) (hd : ports_distinct h) :
    mask_bits (aio_ports h ++ ray_ports h) h.HDSPE_CHAN_AIO_LINE =
      [true, false, false, false, false, false, false, false, false, false, false] ∧
    mask_bits (aio_ports h ++ ray_ports h) h.HDSPE_CHAN_AIO_PHONE =
      [false, true, false, false, false, false, false, false, false, false, false] ∧
    mask_bits (aio_ports h ++ ray_ports h) h.HDSPE_CHAN_AIO_AES =
      [false, false, true, false, false, false, false, false, false, false, false] ∧
    mask_bits (aio_ports h ++ ray_ports h) h.HDSPE_CHAN_AIO_SPDIF =
      [false, false, false, true, false, false, false, false, false, false, false] ∧
    mask_bits (aio_ports h ++ ray_ports h) h.HDSPE_CHAN_AIO_ADAT =
      [false, false, false, false, true, false, false, false, false, false, false] :=
  ⟨hd 0 (by norm_num), hd 1 (by norm_num), hd 2 (by norm_num), hd 3 (by norm_num),
    hd 4 (by norm_num)⟩

theorem aio_all_tests (h : hdspe_h) (hd : ports_distinct h) (m : Nat) :
    (m &&& aio_all h) &&& h.HDSPE_CHAN_AIO_LINE = m &&& h.HDSPE_CHAN_AIO_LINE ∧
    (m &&& aio_all h) &&& h.HDSPE_CHAN_AIO_PHONE = m &&& h.HDSPE_CHAN_AIO_PHONE ∧
    (m &&& aio_all h) &&& h.HDSPE_CHAN_AIO_AES = m &&& h.HDSPE_CHAN_AIO_AES ∧
    (m &&& aio_all h) &&& h.HDSPE_CHAN_AIO_SPDIF = m &&& h.HDSPE_CHAN_AIO_SPDIF ∧
    (m &&& aio_all h) &&& h.HDSPE_CHAN_AIO_ADAT = m &&& h.HDSPE_CHAN_AIO_ADAT ∧
    (m &&& aio_all h) &&& h.HDSPE_CHAN_RAY_AES = 0 ∧
    (m &&& aio_all h) &&& h.HDSPE_CHAN_RAY_SPDIF = 0 ∧
    (m &&& aio_all h) &&& h.HDSPE_CHAN_RAY_ADAT1 = 0 ∧
    (m &&& aio_all h) &&& h.HDSPE_CHAN_RAY_ADAT2 = 0 ∧
    (m &&& aio_all h) &&& h.HDSPE_CHAN_RAY_ADAT3 = 0 ∧
    (m &&& aio_all h) &&& h.HDSPE_CHAN_RAY_ADAT4 = 0 := by
  obtain ⟨h0, h1, h2, h3, h4⟩ := ports_distinct_facts h hd
  simp [mask_bits, aio_ports, ray_ports] at h0 h1 h2 h3 h4
  simp only [aio_all, Nat.land_assoc, Nat.and_distrib_right]
  simp [h0, h1, h2, h3, h4]

/-- C18: when the port flags are distinct bits, for every positive stream
width (so for 2, 4 and 8) and every mask with at least one AIO port the
channel count equals the count of the mask restricted to the AIO ports: the
RayDAT bits contribute nothing. For a mask with no AIO port the count is 2
for each of RayDAT AES and S/PDIF present plus the width for each RayDAT ADAT
port present. -/
theorem channel_count_catalog (h : hdspe_h) (hd : ports_distinct h) (w m : Nat)
    (hw : 0 < w) :
    (has_port (aio_ports h) m = true →
      hdspe_channel_count h w m = hdspe_channel_count h w (m &&& aio_all h)) ∧
    (has_port (aio_ports h) m = false →
      hdspe_channel_count h w m =
        (if m &&& h.HDSPE_CHAN_RAY_AES ≠ 0 then 2 else 0) +
        (if m &&& h.HDSPE_CHAN_RAY_SPDIF ≠ 0 then 2 else 0) +
        (if m &&& h.HDSPE_CHAN_RAY_ADAT1 ≠ 0 then w else 0) +
        (if m &&& h.HDSPE_CHAN_RAY_ADAT2 ≠ 0 then w else 0) +
        (if m &&& h.HDSPE_CHAN_RAY_ADAT3 ≠ 0 then w else 0) +
        (if m &&& h.HDSPE_CHAN_RAY_ADAT4 ≠ 0 then w else 0)) := by
  constructor
  · intro hm
    obtain ⟨t1, t2, t3, t4, t5, t6, t7, t8, t9, t10, t11⟩ := aio_all_tests h hd m
    simp only [has_port, mask_bits, aio_ports, List.map_cons, List.map_nil, List.any_cons,
      List.any_nil, Bool.or_false, Bool.or_eq_true, decide_eq_true_eq] at hm
    unfold hdspe_channel_count
    simp only [t1, t2, t3, t4, t5, t6, t7, t8, t9, t10, t11]
    by_cases h1 : m &&& h.HDSPE_CHAN_AIO_LINE = 0 <;>
    by_cases h2 : m &&& h.HDSPE_CHAN_AIO_PHONE = 0 <;>
    by_cases h3 : m &&& h.HDSPE_CHAN_AIO_AES = 0 <;>
    by_cases h4 : m &&& h.HDSPE_CHAN_AIO_SPDIF = 0 <;>
    by_cases h5 : m &&& h.HDSPE_CHAN_AIO_ADAT = 0 <;>
    simp [h1, h2, h3, h4, h5] at hm ⊢ <;> omega
  · intro hm
    simp only [has_port, mask_bits, aio_ports, List.map_cons, List.map_nil, List.any_cons,
      List.any_nil, Bool.or_false, Bool.or_eq_false_iff, decide_eq_false_iff_not, not_not,
      ne_eq] at hm
    obtain ⟨h1, h2, h3, h4, h5⟩ := hm
    unfold hdspe_channel_count
    simp only [h1, h2, h3, h4, h5, ne_eq, not_true_eq_false, if_false]
    by_cases g1 : m &&& h.HDSPE_CHAN_RAY_AES = 0 <;>
    by_cases g2 : m &&& h.HDSPE_CHAN_RAY_SPDIF = 0 <;>
    by_cases g3 : m &&& h.HDSPE_CHAN_RAY_ADAT1 = 0 <;>
    by_cases g4 : m &&& h.HDSPE_CHAN_RAY_ADAT2 = 0 <;>
    by_cases g5 : m &&& h.HDSPE_CHAN_RAY_ADAT3 = 0 <;>
    by_cases g6 : m &&& h.HDSPE_CHAN_RAY_ADAT4 = 0 <;>
    simp [g1, g2, g3, g4, g5, g6]

/-- Witness of C18: the mask AIO ADAT + RayDAT AES at width 8. -/
theorem channel_count_catalog_witness :
    ports_distinct hdr0 ∧ 0 < 8 ∧ has_port (aio_ports hdr0) (16 ||| 32) = true ∧
    hdspe_channel_count hdr0 8 (16 ||| 32) =
      hdspe_channel_count hdr0 8 ((16 ||| 32) &&& aio_all hdr0) :=
  ⟨by decide, by decide, by decide,
    (channel_count_catalog hdr0 (by decide) 8 (16 ||| 32) (by decide)).1 (by decide)⟩

/-- C20: for every stream width and every mask without the AIO line port
the slot width equals the channel count; for every mask with the AIO line
port the slot width is 2 whatever the other ports; and, the port flags being
distinct bits, for the line port alone both the slot width and the channel
count are 2. -/
theorem slot_width_mirrors_count (h : hdspe_h) (w m : Nat) :
    (m &&& h.HDSPE_CHAN_AIO_LINE = 0 →
      hdspe_channel_slot_width h w m = hdspe_channel_count h w m) ∧
    (m &&& h.HDSPE_CHAN_AIO_LINE ≠ 0 → hdspe_channel_slot_width h w m = 2) ∧
    (ports_distinct h →
      hdspe_channel_slot_width h w h.HDSPE_CHAN_AIO_LINE = 2 ∧
      hdspe_channel_count h w h.HDSPE_CHAN_AIO_LINE = 2) := by
  refine ⟨?_, ?_, ?_⟩
  · intro h1
    unfold hdspe_channel_slot_width hdspe_channel_count
    simp only [h1, ne_eq, not_true_eq_false, if_false]
  · intro h1
    unfold hdspe_channel_slot_width
    simp only [h1, ne_eq, not_false_eq_true, if_true]
  · intro hd
    obtain ⟨h0, -⟩ := ports_distinct_facts h hd
    simp [mask_bits, aio_ports, ray_ports] at h0
    simp [hdspe_channel_slot_width, hdspe_channel_count, h0]

/-- Witness of C20: the mask AIO phone + ADAT at width 8, and the line
port alone. -/
theorem slot_width_mirrors_count_witness :
    (2 ||| 16) &&& hdr0.HDSPE_CHAN_AIO_LINE = 0 ∧ ports_distinct hdr0 ∧
    hdspe_channel_slot_width hdr0 8 (2 ||| 16) = hdspe_channel_count hdr0 8 (2 ||| 16) ∧
    hdspe_channel_count hdr0 8 hdr0.HDSPE_CHAN_AIO_LINE = 2 :=
  ⟨by decide, by decide,
    (slot_width_mirrors_count hdr0 8 (2 ||| 16)).1 (by decide),
    ((slot_width_mirrors_count hdr0 8 (2 ||| 16)).2.2 (by decide)).2⟩

/-! ## Gain mapping -/

theorem write_4_fields (sc : sc_info) (o v : Nat) :
    (hdspe_write_4 sc o v).type = sc.type ∧ (hdspe_write_4 sc o v).speed = sc.speed ∧
    (hdspe_write_4 sc o v).period = sc.period ∧
    (hdspe_write_4 sc o v).ctrl_register = sc.ctrl_register ∧
    (hdspe_write_4 sc o v).pbuf = sc.pbuf ∧ (hdspe_write_4 sc o v).rbuf = sc.rbuf ∧
    (hdspe_write_4 sc o v).children_err = sc.children_err ∧
    (hdspe_write_4 sc o v).children = sc.children :=
  ⟨rfl, rfl, rfl, rfl, rfl, rfl, rfl, rfl⟩

theorem foldl_regs (g : Nat → reg_write) (l : List Nat) :
    ∀ sc : sc_info,
      l.foldl (fun s t => { s with regs := s.regs ++ [g t] }) sc =
        { sc with regs := sc.regs ++ l.map g } := by
  induction l with
  | nil => intro sc; simp
  | cons a l ih =>
    intro sc
    rw [List.foldl_cons, ih]
    simp

theorem setgain_eq (h : hdspe_h) (sc : sc_info) (i j : Nat) (ch : sc_chinfo)
    (hch : sc.getch i j = some ch) :
    hdspechan_setgain h sc i j =
      { sc with regs := sc.regs ++
        ((if 0 < hdspe_channel_slot_width h (hdspe_adat_width sc.speed) ch.ports then
            [gain_write h ch.dir
              (hdspe_channel_slot_base h (hdspe_adat_width sc.speed) ch.ports)
              ((((ch.lvol * h.HDSPE_MAX_GAIN) % 2 ^ 32 / 100) % 2 ^ 16 &&& 65535) % 2 ^ 32)]
          else []) ++
        (List.range'
            (hdspe_channel_slot_base h (hdspe_adat_width sc.speed) ch.ports + 1)
            (hdspe_channel_slot_width h (hdspe_adat_width sc.speed) ch.ports - 1)).map
          (fun t => gain_write h ch.dir t
            ((((ch.rvol * h.HDSPE_MAX_GAIN) % 2 ^ 32 / 100) % 2 ^ 16 &&& 65535) % 2 ^ 32))) } := by
  unfold hdspechan_setgain
  simp only [hch]
  have hfold := foldl_regs (fun t => gain_write h ch.dir t
    ((((ch.rvol * h.HDSPE_MAX_GAIN) % 2 ^ 32 / 100) % 2 ^ 16 &&& 65535) % 2 ^ 32))
  simp only [gain_write] at hfold ⊢
  simp only [hdspe_hw_mixer, hdspe_write_4]
  rw [hfold]
  generalize hdspe_channel_slot_base h (hdspe_adat_width sc.speed) ch.ports = base
  generalize hdspe_channel_slot_width h (hdspe_adat_width sc.speed) ch.ports = k
  rcases Nat.eq_zero_or_pos k with hk | hk
  · subst hk
    simp
  · have h1 : base < base + k := by omega
    have h2 : base + k - (base + 1) = k - 1 := by omega
    simp [h1, hk, h2]

theorem gain_value (v g : Nat) (hv : v ≤ 100) (hg : g < 65536) :
    (((v * g) % 2 ^ 32 / 100) % 2 ^ 16 &&& 65535) % 2 ^ 32 = v * g / 100 := by
  have h1 : v * g ≤ 100 * g := Nat.mul_le_mul_right _ hv
  have h2 : v * g / 100 ≤ g := Nat.div_le_of_le_mul h1
  have h3 : (v * g) % 2 ^ 32 = v * g := Nat.mod_eq_of_lt (by omega)
  have h4 : (65535 : Nat) = 2 ^ 16 - 1 := by norm_num
  rw [h3, h4, Nat.and_pow_two_sub_one_eq_mod, Nat.mod_mod,
    Nat.mod_eq_of_lt (show v * g / 100 < 2 ^ 16 by omega),
    Nat.mod_eq_of_lt (show v * g / 100 < 2 ^ 32 by omega)]

/-- C14: for a channel with volumes on the 0 to 100 scale (and a 16-bit
`HDSPE_MAX_GAIN`) whose slot range at the stream width of the device rate is
`[base, base + k)`, `hdspechan_setgain` changes the register log only and
appends exactly `k` gain-matrix writes, one per slot in ascending order, each
with destination and source equal to that slot; the write for the slot `base`
carries `lvol * HDSPE_MAX_GAIN / 100`, every other one
`rvol * HDSPE_MAX_GAIN / 100`. So `k = 2` gives two writes (left value at
`base`, right value at `base + 1`), `k = 1` one write with the left value and
`k = 0` none. -/
theorem setgain_writes (h : hdspe_h) (sc : sc_info) (i j : Nat) (ch : sc_chinfo)
    (hch : sc.getch i j = some ch) (hl : ch.lvol ≤ 100) (hr : ch.rvol ≤ 100)
    (hg : h.HDSPE_MAX_GAIN < 65536) :
    hdspechan_setgain h sc i j =
      { sc with regs := (sc.regs ++
        (List.range' (hdspe_channel_slot_base h (hdspe_adat_width sc.speed) ch.ports)
            (hdspe_channel_slot_width h (hdspe_adat_width sc.speed) ch.ports)).map
          (fun t => gain_write h ch.dir t
            (if t = hdspe_channel_slot_base h (hdspe_adat_width sc.speed) ch.ports
              then ch.lvol * h.HDSPE_MAX_GAIN / 100
              else ch.rvol * h.HDSPE_MAX_GAIN / 100))) } ∧
    (hdspechan_setgain h sc i j).regs.length =
      sc.regs.length + hdspe_channel_slot_width h (hdspe_adat_width sc.speed) ch.ports ∧
    (∀ (s : sc_info) (t v : Nat), v < 65536 →
      hdspe_hw_mixer h s ch t t v = { s with regs := s.regs ++ [gain_write h ch.dir t v] }) := by
  have hmain : hdspechan_setgain h sc i j =
      { sc with regs := (sc.regs ++
        (List.range' (hdspe_channel_slot_base h (hdspe_adat_width sc.speed) ch.ports)
            (hdspe_channel_slot_width h (hdspe_adat_width sc.speed) ch.ports)).map
          (fun t => gain_write h ch.dir t
            (if t = hdspe_channel_slot_base h (hdspe_adat_width sc.speed) ch.ports
              then ch.lvol * h.HDSPE_MAX_GAIN / 100
              else ch.rvol * h.HDSPE_MAX_GAIN / 100))) } := by
    rw [setgain_eq h sc i j ch hch, gain_value _ _ hl hg, gain_value _ _ hr hg]
    generalize hdspe_channel_slot_base h (hdspe_adat_width sc.speed) ch.ports = base
    generalize hdspe_channel_slot_width h (hdspe_adat_width sc.speed) ch.ports = k
    congr 2
    rcases Nat.eq_zero_or_pos k with hk | hk
    · subst hk
      simp
    · obtain ⟨k', rfl⟩ : ∃ k', k = k' + 1 := ⟨k - 1, by omega⟩
      rw [List.range'_succ, List.map_cons, if_pos hk, if_pos rfl, Nat.add_sub_cancel]
      rw [List.singleton_append]
      congr 1
      apply List.map_congr_left
      intro t ht
      rw [List.mem_range'_1] at ht
      rw [if_neg (by omega)]
  refine ⟨hmain, ?_, ?_⟩
  · rw [hmain]
    simp
  · intro s t v hv
    have h4 : (65535 : Nat) = 2 ^ 16 - 1 := by norm_num
    simp only [hdspe_hw_mixer, hdspe_write_4, gain_write]
    rw [h4, Nat.and_pow_two_sub_one_eq_mod, Nat.mod_mod,
      Nat.mod_eq_of_lt (show v < 2 ^ 16 by omega), Nat.mod_eq_of_lt (show v < 2 ^ 32 by omega)]

/-- Witness of C14: the AIO ADAT channel at 48 kHz has eight slots and gets
eight writes. -/
theorem setgain_writes_witness :
    dev_adat48.getch 0 0 = some chan_aio_adat ∧ chan_aio_adat.lvol ≤ 100 ∧
    chan_aio_adat.rvol ≤ 100 ∧ hdr0.HDSPE_MAX_GAIN < 65536 ∧
    (hdspechan_setgain hdr0 dev_adat48 0 0).regs.length = 8 :=
  ⟨rfl, by decide, by decide, by decide,
    (setgain_writes hdr0 dev_adat48 0 0 chan_aio_adat rfl (by decide) (by decide)
      (by decide)).2.1⟩

/-! ## Zero-fill -/

theorem foldl_bzero (S len : Nat) (l : List Nat) :
    ∀ (buf : Nat → Nat) (x : Nat),
      (l.foldl (fun b t => bzero b (S * t) len) buf) x =
        if ∃ t ∈ l, S * t ≤ x ∧ x < S * t + len / 4 then 0 else buf x := by
  induction l with
  | nil => intro buf x; simp
  | cons a l ih =>
    intro buf x
    rw [List.foldl_cons, ih]
    by_cases h1 : ∃ t ∈ l, S * t ≤ x ∧ x < S * t + len / 4
    · obtain ⟨t, ht, hx⟩ := h1
      rw [if_pos ⟨t, ht, hx⟩, if_pos ⟨t, List.mem_cons_of_mem _ ht, hx⟩]
    · rw [if_neg h1]
      unfold bzero
      by_cases h2 : S * a ≤ x ∧ x < S * a + len / 4
      · rw [if_pos h2, if_pos ⟨a, List.mem_cons_self _ _, h2⟩]
      · rw [if_neg h2, if_neg]
        rintro ⟨t, ht, hx⟩
        rcases List.mem_cons.1 ht with rfl | ht'
        · exact h2 hx
        · exact h1 ⟨t, ht', hx⟩

theorem foldl_bzero_slots (h : hdspe_h) (hsize : h.HDSPE_CHANBUF_SIZE = 4 * h.HDSPE_CHANBUF_SAMPLES)
    (base width : Nat) (buf : Nat → Nat) :
    (List.range' base (base + width - base)).foldl
        (fun b t => bzero b (h.HDSPE_CHANBUF_SAMPLES * t) h.HDSPE_CHANBUF_SIZE) buf =
      zero_slots h base width buf := by
  funext x
  rw [foldl_bzero, hsize, Nat.mul_div_cancel_left _ (by norm_num : 0 < 4), Nat.add_sub_cancel_left]
  unfold zero_slots in_slots
  apply if_congr _ rfl rfl
  constructor
  · rintro ⟨t, ht, hx⟩
    rw [List.mem_range'_1] at ht
    exact ⟨t, ht.2, ht.1, hx⟩
  · rintro ⟨t, ht1, ht2, hx⟩
    exact ⟨t, List.mem_range'_1.2 ⟨ht2, ht1⟩, hx⟩

theorem clean_eq (h : hdspe_h) (hsize : h.HDSPE_CHANBUF_SIZE = 4 * h.HDSPE_CHANBUF_SAMPLES)
    (sc : sc_info) (i j : Nat) (ch : sc_chinfo) (hch : sc.getch i j = some ch) :
    clean h sc i j =
      if ch.dir = PCMDIR.PCMDIR_PLAY then
        { sc with pbuf := (zero_slots h
            (hdspe_channel_slot_base h (hdspe_adat_width sc.speed) ch.ports)
            (hdspe_channel_slot_width h (hdspe_adat_width sc.speed) ch.ports) sc.pbuf) }
      else
        { sc with rbuf := (zero_slots h
            (hdspe_channel_slot_base h (hdspe_adat_width sc.speed) ch.ports)
            (hdspe_channel_slot_width h (hdspe_adat_width sc.speed) ch.ports) sc.rbuf) } := by
  unfold clean
  simp only [hch, foldl_bzero_slots h hsize]

theorem zero_slots_idem (h : hdspe_h) (base width : Nat) (buf : Nat → Nat) :
    zero_slots h base width (zero_slots h base width buf) = zero_slots h base width buf := by
  funext x
  unfold zero_slots
  split_ifs <;> rfl

/-- C15: with `HDSPE_CHANBUF_SIZE` four times `HDSPE_CHANBUF_SAMPLES`, for
every channel, device rate and ring contents, `clean` applied twice gives the
same device state as `clean` applied once; after `clean` every sample of
every slot of the channel's range `[base, base + width)` in the ring of the
channel's direction is zero, every sample outside that range is unchanged,
and the ring of the other direction is unchanged. -/
theorem clean_zero_fill (h : hdspe_h) (sc : sc_info) (i j : Nat) (ch : sc_chinfo)
    (hch : sc.getch i j = some ch)
    (hsize : h.HDSPE_CHANBUF_SIZE = 4 * h.HDSPE_CHANBUF_SAMPLES) :
    clean h (clean h sc i j) i j = clean h sc i j ∧
    (∀ x, in_slots h (hdspe_channel_slot_base h (hdspe_adat_width sc.speed) ch.ports)
        (hdspe_channel_slot_width h (hdspe_adat_width sc.speed) ch.ports) x →
      (clean h sc i j).ring ch.dir x = 0) ∧
    (∀ x, ¬ in_slots h (hdspe_channel_slot_base h (hdspe_adat_width sc.speed) ch.ports)
        (hdspe_channel_slot_width h (hdspe_adat_width sc.speed) ch.ports) x →
      (clean h sc i j).ring ch.dir x = sc.ring ch.dir x) ∧
    (∀ d, d ≠ ch.dir → (clean h sc i j).ring d = sc.ring d) := by
  have hc := clean_eq h hsize sc i j ch hch
  refine ⟨?_, ?_, ?_, ?_⟩
  · have hch2 : (clean h sc i j).getch i j = some ch := by
      rw [hc]; split_ifs <;> exact hch
    rw [clean_eq h hsize (clean h sc i j) i j ch hch2]
    by_cases hd : ch.dir = PCMDIR.PCMDIR_PLAY
    · simp only [hd, if_true] at hc ⊢
      rw [hc]
      simp only [zero_slots_idem]
    · simp only [hd, if_false] at hc ⊢
      rw [hc]
      simp only [zero_slots_idem]
  · intro x hx
    rw [hc]
    unfold sc_info.ring
    split_ifs <;> simp [zero_slots, hx]
  · intro x hx
    rw [hc]
    unfold sc_info.ring
    split_ifs <;> simp [zero_slots, hx]
  · intro d hd
    rw [hc]
    unfold sc_info.ring
    cases d <;> cases hdir : ch.dir <;> simp_all

/-- Witness of C15 on the AIO ADAT channel. -/
theorem clean_zero_fill_witness :
    dev_adat48.getch 0 0 = some chan_aio_adat ∧
    hdr0.HDSPE_CHANBUF_SIZE = 4 * hdr0.HDSPE_CHANBUF_SAMPLES ∧
    clean hdr0 (clean hdr0 dev_adat48 0 0) 0 0 = clean hdr0 dev_adat48 0 0 :=
  ⟨rfl, by decide, (clean_zero_fill hdr0 dev_adat48 0 0 chan_aio_adat rfl (by decide)).1⟩

/-- Counterexample to C16 as stated: two cards that differ in the device
rate only, each with a playback channel on the AIO ADAT port and a play ring
filled with ones. At 48 kHz `clean` zeroes slot 19, at 192 kHz it does not:
the zeroed slots are `[12, 20)` and `[12, 14)`. -/
theorem clean_width_counterexample :
    dev_adat192 = { dev_adat48 with speed := 192000 } ∧
    dev_adat48.getch 0 0 = some chan_aio_adat ∧
    slot_range hdr0 (hdspe_adat_width dev_adat48.speed) chan_aio_adat.ports =
      Finset.Ico 12 20 ∧
    slot_range hdr0 (hdspe_adat_width dev_adat192.speed) chan_aio_adat.ports =
      Finset.Ico 12 14 ∧
    dev_adat48.pbuf (19 * hdr0.HDSPE_CHANBUF_SAMPLES) = 1 ∧
    (clean hdr0 dev_adat48 0 0).pbuf (19 * hdr0.HDSPE_CHANBUF_SAMPLES) = 0 ∧
    (clean hdr0 dev_adat192 0 0).pbuf (19 * hdr0.HDSPE_CHANBUF_SAMPLES) = 1 := by
  refine ⟨rfl, rfl, ?_, ?_, rfl, ?_, ?_⟩ <;> decide

/-- C16, amended: with `HDSPE_CHANBUF_SIZE` four times
`HDSPE_CHANBUF_SAMPLES`, for every channel the ring slots zeroed by `clean`
are the slots of the channel's range at the stream width of the current
device rate, every other slot being unchanged; and `clean` gives the same
rings for two device rates that have the same stream width. -/
theorem clean_slots_at_width (h : hdspe_h) (sc : sc_info) (i j : Nat) (ch : sc_chinfo)
    (hch : sc.getch i j = some ch)
    (hsize : h.HDSPE_CHANBUF_SIZE = 4 * h.HDSPE_CHANBUF_SAMPLES) :
    (∀ slot p, p < h.HDSPE_CHANBUF_SAMPLES →
      (clean h sc i j).ring ch.dir (h.HDSPE_CHANBUF_SAMPLES * slot + p) =
        if slot ∈ slot_range h (hdspe_adat_width sc.speed) ch.ports then 0
        else sc.ring ch.dir (h.HDSPE_CHANBUF_SAMPLES * slot + p)) ∧
    (∀ speed, hdspe_adat_width speed = hdspe_adat_width sc.speed →
      (clean h { sc with speed := speed } i j).pbuf = (clean h sc i j).pbuf ∧
      (clean h { sc with speed := speed } i j).rbuf = (clean h sc i j).rbuf) := by
  have hc := clean_eq h hsize sc i j ch hch
  constructor
  · intro slot p hp
    have hiff : in_slots h (hdspe_channel_slot_base h (hdspe_adat_width sc.speed) ch.ports)
        (hdspe_channel_slot_width h (hdspe_adat_width sc.speed) ch.ports)
        (h.HDSPE_CHANBUF_SAMPLES * slot + p) ↔
        slot ∈ slot_range h (hdspe_adat_width sc.speed) ch.ports := by
      unfold in_slots slot_range
      rw [Finset.mem_Ico]
      constructor
      · rintro ⟨t, ht1, ht2, hx1, hx2⟩
        have e : t = slot := by
          have a1 : h.HDSPE_CHANBUF_SAMPLES * t < h.HDSPE_CHANBUF_SAMPLES * (slot + 1) := by
            rw [Nat.mul_add, Nat.mul_one]; omega
          have a2 : h.HDSPE_CHANBUF_SAMPLES * slot < h.HDSPE_CHANBUF_SAMPLES * (t + 1) := by
            rw [Nat.mul_add, Nat.mul_one]; omega
          have b1 := Nat.lt_of_mul_lt_mul_left a1
          have b2 := Nat.lt_of_mul_lt_mul_left a2
          omega
        subst e
        exact ⟨ht2, ht1⟩
      · rintro ⟨h1, h2⟩
        exact ⟨slot, h2, h1, by omega, by omega⟩
    rw [hc]
    unfold sc_info.ring
    split_ifs <;> simp_all [zero_slots]
  · intro speed hs
    have hch' : ({ sc with speed := speed } : sc_info).getch i j = some ch := hch
    rw [clean_eq h hsize _ i j ch hch', hc]
    simp only [hs]
    split_ifs <;> exact ⟨rfl, rfl⟩

/-- Witness of the amended C16: 44100 Hz and 48000 Hz have the same stream
width. -/
theorem clean_slots_at_width_witness :
    dev_adat48.getch 0 0 = some chan_aio_adat ∧
    hdr0.HDSPE_CHANBUF_SIZE = 4 * hdr0.HDSPE_CHANBUF_SAMPLES ∧
    hdspe_adat_width 44100 = hdspe_adat_width dev_adat48.speed ∧
    (clean hdr0 { dev_adat48 with speed := 44100 } 0 0).pbuf = (clean hdr0 dev_adat48 0 0).pbuf :=
  ⟨rfl, by decide, by decide,
    ((clean_slots_at_width hdr0 dev_adat48 0 0 chan_aio_adat rfl (by decide)).2 44100
      (by decide)).1⟩

/-! ## Run tracking and triggers -/

theorem running_eq_one_iff (sc : sc_info) (herr : sc.children_err = 0) :
    hdspe_running sc = 1 ↔ some_running sc := by
  unfold hdspe_running some_running
  simp only [herr, ne_eq, not_true_eq_false, if_false]
  constructor
  · intro h1
    by_cases hany : sc.children.any (fun scp => scp.chan.any (fun ch => ch.run ≠ 0)) = true
    · rw [List.any_eq_true] at hany
      obtain ⟨scp, hscp, hc⟩ := hany
      rw [List.any_eq_true] at hc
      obtain ⟨c, hc1, hc2⟩ := hc
      exact ⟨scp, hscp, c, hc1, by simpa using hc2⟩
    · rw [if_neg hany] at h1
      exact absurd h1 (by decide)
  · rintro ⟨scp, hscp, c, hc1, hc2⟩
    rw [if_pos]
    rw [List.any_eq_true]
    refine ⟨scp, hscp, ?_⟩
    rw [List.any_eq_true]
    exact ⟨c, hc1, by simpa using hc2⟩

theorem running_zero_iff (sc : sc_info) :
    hdspe_running sc = 0 ↔ sc.children_err = 0 ∧ ¬ some_running sc := by
  constructor
  · intro h0
    have herr : sc.children_err = 0 := by
      by_contra hne
      unfold hdspe_running at h0
      rw [if_pos hne] at h0
      exact absurd h0 (by decide)
    refine ⟨herr, fun hr => ?_⟩
    rw [(running_eq_one_iff sc herr).2 hr] at h0
    exact absurd h0 (by decide)
  · rintro ⟨herr, hr⟩
    unfold hdspe_running
    rw [if_neg (by simpa using herr)]
    split_ifs with hany
    · exfalso
      apply hr
      have h1 : hdspe_running sc = 1 := by
        unfold hdspe_running
        rw [if_neg (by simpa using herr), if_pos hany]
      exact (running_eq_one_iff sc herr).1 h1
    · rfl

/-- C21: `hdspe_adat_width` returns 2, 4 or 8 for every rate and does not
increase with the rate; it is 8 for 32000, 44100 and 48000, 4 for 64000,
88200 and 96000, and 2 for 128000, 176400 and 192000; and, the frequency bits
being distinct, among the nine entries of `rate_map` it is 4 exactly for the
entries whose code carries `HDSPE_FREQ_DOUBLE` and 2 exactly for those whose
code carries `HDSPE_FREQ_QUAD`. -/
theorem adat_width_rate_band (h : hdspe_h) (hf : freq_bits_distinct h) :
    (∀ speed, hdspe_adat_width speed = 2 ∨ hdspe_adat_width speed = 4 ∨
      hdspe_adat_width speed = 8) ∧
    (∀ s1 s2, s1 ≤ s2 → hdspe_adat_width s2 ≤ hdspe_adat_width s1) ∧
    rates.map hdspe_adat_width = [8, 8, 8, 4, 4, 4, 2, 2, 2] ∧
    (rate_map h).dropLast.map hdspe_rate.speed = rates ∧
    (∀ e ∈ (rate_map h).dropLast,
      (hdspe_adat_width e.speed = 4 ↔ e.reg &&& h.HDSPE_FREQ_DOUBLE ≠ 0) ∧
      (hdspe_adat_width e.speed = 2 ↔ e.reg &&& h.HDSPE_FREQ_QUAD ≠ 0)) := by
  obtain ⟨f1, f2, f3, f4, f5, f6, f7, f8, f9, f10⟩ := hf
  refine ⟨?_, ?_, rfl, rfl, ?_⟩
  · intro speed
    unfold hdspe_adat_width
    split_ifs <;> simp
  · intro s1 s2 hle
    unfold hdspe_adat_width
    split_ifs <;> omega
  · intro e he
    simp only [rate_map, List.dropLast, List.mem_cons, List.mem_singleton, List.not_mem_nil,
      or_false] at he
    rcases he with rfl | rfl | rfl | rfl | rfl | rfl | rfl | rfl | rfl <;>
      simp [hdspe_adat_width, Nat.and_distrib_right, f1, f2, f3, f4, f5, f6, f7, f8, f9, f10]

/-- Witness of C21 for the header values `hdr0`. -/
theorem adat_width_rate_band_witness :
    freq_bits_distinct hdr0 ∧
    (∀ e ∈ (rate_map hdr0).dropLast,
      (hdspe_adat_width e.speed = 4 ↔ e.reg &&& hdr0.HDSPE_FREQ_DOUBLE ≠ 0) ∧
      (hdspe_adat_width e.speed = 2 ↔ e.reg &&& hdr0.HDSPE_FREQ_QUAD ≠ 0)) :=
  ⟨by decide, (adat_width_rate_band hdr0 (by decide)).2.2.2.2⟩

theorem setspeed_idle_regs (h : hdspe_h) (sc : sc_info) (speed : Nat)
    (hidle : hdspe_running sc = 0)
    (htype : sc.type = h.HDSPE_RAYDAT ∨ sc.type = hdspe_h.HDSPE_AIO h) :
    ∃ e, (rate_map h).get? (rate_index speed) = some e ∧
      e.speed = rate_by_threshold speed ∧
      (hdspechan_setspeed h sc speed).1.regs =
        sc.regs ++
          [⟨4, h.HDSPE_CONTROL_REG,
              ((sc.ctrl_register &&& not32 h.HDSPE_FREQ_MASK) ||| e.reg) % 2 ^ 32⟩,
            ⟨4, h.HDSPE_FREQ_REG,
              (hdspe_h.HDSPE_FREQ_AIO h / hdspechan_setspeed_divisor e.speed) % 2 ^ 32⟩] := by
  obtain ⟨e, he, hs⟩ := rate_map_index h speed
  refine ⟨e, he, hs, ?_⟩
  unfold hdspechan_setspeed
  rw [setspeed_hr_eq, he]
  simp [hidle, htype, hdspe_write_4, hdspechan_setspeed_divisor]

theorem setspeed_divisor_cases (speed : Nat) :
    hdspechan_setspeed_divisor (rate_by_threshold speed) = 32000 ∨
    hdspechan_setspeed_divisor (rate_by_threshold speed) = 44100 ∨
    hdspechan_setspeed_divisor (rate_by_threshold speed) = 48000 := by
  unfold rate_by_threshold
  split_ifs <;> decide

/-- C22: for every requested rate on an idle AIO or RayDAT card, the divisor
of the DDS value in `hdspechan_setspeed` (the resolved rate, divided by 4
above 96000 and by 2 above 48000) is 32000, 44100 or 48000, so it is not
zero; the second and last register write of the call stores
`HDSPE_FREQ_AIO / divisor` in the frequency register, so two requests whose
resolved rates have the same divisor program the same DDS value; the rates of
one family (32000, 64000, 128000; 44100, 88200, 176400; 48000, 96000, 192000)
have the same divisor; and `sc->speed` is the undivided resolved rate. -/
theorem setspeed_dds_divisor (h : hdspe_h) (sc : sc_info) (speed : Nat)
    (hidle : hdspe_running sc = 0)
    (htype : sc.type = h.HDSPE_RAYDAT ∨ sc.type = hdspe_h.HDSPE_AIO h) :
    hdspechan_setspeed_divisor (hdspechan_setspeed h sc speed).2 ∈ [32000, 44100, 48000] ∧
    hdspechan_setspeed_divisor (hdspechan_setspeed h sc speed).2 ≠ 0 ∧
    (hdspechan_setspeed h sc speed).1.regs.length = sc.regs.length + 2 ∧
    (hdspechan_setspeed h sc speed).1.regs.getLast? =
      some ⟨4, h.HDSPE_FREQ_REG,
        (hdspe_h.HDSPE_FREQ_AIO h /
          hdspechan_setspeed_divisor (hdspechan_setspeed h sc speed).2) % 2 ^ 32⟩ ∧
    (∀ speed', hdspechan_setspeed_divisor (hdspechan_setspeed h sc speed').2 =
        hdspechan_setspeed_divisor (hdspechan_setspeed h sc speed).2 →
      (hdspechan_setspeed h sc speed').1.regs.getLast? =
        (hdspechan_setspeed h sc speed).1.regs.getLast?) ∧
    rates.map hdspechan_setspeed_divisor =
      [32000, 44100, 48000, 32000, 44100, 48000, 32000, 44100, 48000] ∧
    (hdspechan_setspeed h sc speed).1.speed = (hdspechan_setspeed h sc speed).2 ∧
    (hdspechan_setspeed h sc speed).2 ∈ rates := by
  have key := fun v => setspeed_idle_supported h sc v hidle htype
  have hlast : ∀ v, (hdspechan_setspeed h sc v).1.regs.length = sc.regs.length + 2 ∧
      (hdspechan_setspeed h sc v).1.regs.getLast? =
        some ⟨4, h.HDSPE_FREQ_REG,
          (hdspe_h.HDSPE_FREQ_AIO h /
            hdspechan_setspeed_divisor (hdspechan_setspeed h sc v).2) % 2 ^ 32⟩ := by
    intro v
    obtain ⟨e, -, hs, hregs⟩ := setspeed_idle_regs h sc v hidle htype
    rw [hregs, (key v).1, hs]
    simp
  have hdiv := setspeed_divisor_cases speed
  rw [← (key speed).1] at hdiv
  refine ⟨?_, ?_, (hlast speed).1, (hlast speed).2, ?_, rfl, ?_, ?_⟩
  · simp only [List.mem_cons, List.mem_singleton, List.not_mem_nil, or_false]
    exact hdiv
  · rcases hdiv with h1 | h1 | h1 <;> rw [h1] <;> decide
  · intro speed' heq
    rw [(hlast speed').2, (hlast speed).2, heq]
  · rw [(key speed).1, (key speed).2]
  · rw [(key speed).1]
    exact rate_by_threshold_mem speed

/-- Witness of C22 on the idle AIO card: a request of 90000 Hz resolves to
88200 Hz and divides by 44100. -/
theorem setspeed_dds_divisor_witness :
    hdspe_running dev_idle = 0 ∧
    (dev_idle.type = hdr0.HDSPE_RAYDAT ∨ dev_idle.type = hdspe_h.HDSPE_AIO hdr0) ∧
    hdspechan_setspeed_divisor (hdspechan_setspeed hdr0 dev_idle 90000).2 ∈
      [32000, 44100, 48000] ∧
    (hdspechan_setspeed hdr0 dev_idle 90000).1.regs.length = dev_idle.regs.length + 2 :=
  ⟨by decide, by decide,
    (setspeed_dds_divisor hdr0 dev_idle 90000 (by decide) (by decide)).1,
    (setspeed_dds_divisor hdr0 dev_idle 90000 (by decide) (by decide)).2.2.1⟩

end Hdspe
